import Mathlib

/-!
Verification development for the text-diff and structured-change extraction
engine of the PakBeast repository (modules
`src/comparison/operations/parsing.py`, `src/comparison/operations/text_comparison.py`,
`src/comparison/operations/utils.py`, `src/comparison/operations/models.py`).

Strings are modelled as `List Char` (`Str`), with all primitive operations
(splitlines, strip, the specific regex searches used by the Python source)
implemented explicitly so that every definition is executable and
kernel-reducible.  Whitespace and word-character classes are the ASCII
fragments of Python's classes; no claim in this development depends on the
non-ASCII extensions.
-/

/-- Strings are modelled as lists of characters. -/
abbrev Str := List Char

/-- Converts a Lean string literal into the `Str` model. -/
def lit (s : String) : Str := s.data

/-- ASCII fragment of Python's whitespace class (`str.strip`, regex class of
whitespace characters): space, tab, newline, carriage return, vertical tab,
form feed. -/
def isPySpace (c : Char) : Bool :=
  c = ' ' ∨ c = '\t' ∨ c = '\n' ∨ c = '\r' ∨ c = '\x0b' ∨ c = '\x0c'

/-- ASCII digit test, the regex digit class. -/
def isPyDigit (c : Char) : Bool := '0' ≤ c ∧ c ≤ '9'

/-- ASCII fragment of the regex word-character class: letters, digits,
underscore. -/
def isPyWord (c : Char) : Bool :=
  ('a' ≤ c ∧ c ≤ 'z') ∨ ('A' ≤ c ∧ c ≤ 'Z') ∨ isPyDigit c ∨ c = '_'

/-- Tests whether `pat` is a prefix of `s`, i.e. Python `s.startswith(pat)`. -/
def strStarts : Str → Str → Bool
  | _, [] => true
  | [], _ :: _ => false
  | c :: s, p :: pat => c = p && strStarts s pat

/-- Python `s.strip()` restricted to the ASCII whitespace fragment: removes
leading and trailing whitespace. -/
def pyStrip (s : Str) : Str :=
  ((s.dropWhile isPySpace).reverse.dropWhile isPySpace).reverse

/-- The quote-removal step the Python source applies to extracted values:
`if value.startswith('"') and value.endswith('"'): value = value[1:-1]`.
For the one-character string `"` both tests succeed in Python and slicing
yields the empty string; `(s.drop 1).dropLast` reproduces that. -/
def stripQuotes (s : Str) : Str :=
  if s.head? = some '"' ∧ s.getLast? = some '"' then (s.drop 1).dropLast else s

/-- Helper for `pySplitlines`: prepends a character to the first line of an
already-split tail. -/
def consHead (c : Char) : List Str → List Str
  | [] => [[c]]
  | l :: ls => (c :: l) :: ls

/-- Python `str.splitlines()` restricted to the line breaks `\n`, `\r\n` and
`\r` (the source never produces the rarer break characters).  A trailing
break does not produce a final empty line, matching Python. -/
def pySplitlines : Str → List Str
  | [] => []
  | '\r' :: '\n' :: rest => [] :: pySplitlines rest
  | '\r' :: rest => [] :: pySplitlines rest
  | '\n' :: rest => [] :: pySplitlines rest
  | c :: rest => consHead c (pySplitlines rest)

/-- `"\n".join(lines)`, as used on the diff generator's output. -/
def joinNL : List Str → Str
  | [] => []
  | [l] => l
  | l :: ls => l ++ '\n' :: joinNL ls

/-- Takes the maximal leading run of characters satisfying `p` together with
the remainder. -/
def takeRun (p : Char → Bool) : Str → Str × Str
  | [] => ([], [])
  | c :: rest =>
    if p c then
      let (r, t) := takeRun p rest
      (c :: r, t)
    else ([], c :: rest)

/-- Numeric value of a digit string (the regex groups `(\d+)` converted with
Python `int`). -/
def digitsToNat (ds : Str) : Nat :=
  ds.foldl (fun acc c => acc * 10 + (c.toNat - '0'.toNat)) 0

/-- Splits on the character `,`, i.e. Python `value.split(',')`; always yields
at least one (possibly empty) part. -/
def splitOnComma (s : Str) : List Str :=
  match s with
  | [] => [[]]
  | c :: rest =>
    if c = ',' then [] :: splitOnComma rest
    else consHead c (splitOnComma rest)

/-- Python `value.rstrip(',')`: removes all trailing commas. -/
def rstripComma (s : Str) : Str :=
  (s.reverse.dropWhile (fun c => c = ',')).reverse

/-- Lowercases ASCII letters, i.e. Python `str.lower()` on ASCII input
(used on file-name suffixes). -/
def asciiLower (s : Str) : Str :=
  s.map (fun c => if 'A' ≤ c ∧ c ≤ 'Z' then Char.ofNat (c.toNat + 32) else c)

/-! ### Hunk header search

`re.search(r'@@ -(\d+)(?:,(\d+))? \+(\d+)(?:,(\d+))? @@', line)` from
`_extract_changed_lines` (parsing.py line 75), returning the integer values of
groups 1 and 3.  The pattern is deterministic once a start position is fixed:
each `(\d+)` is a maximal digit run (shorter matches leave a digit where a
non-digit is required, so backtracking cannot succeed), and each optional
`(?:,(\d+))?` must be taken exactly when a comma follows the preceding run
(otherwise the mandatory space fails on the comma). -/

/-- Matches the hunk-header pattern at the start of `s`; returns the old-start
and new-start groups. -/
def hunkHeaderAt (s : Str) : Option (Nat × Nat) :=
  match s with
  | '@' :: '@' :: ' ' :: '-' :: rest =>
    let (d1, r1) := takeRun isPyDigit rest
    if d1 = [] then none else
    let r2 :=
      match r1 with
      | ',' :: r1b =>
        let (d2, r2b) := takeRun isPyDigit r1b
        if d2 = [] then none else some r2b
      | _ => some r1
    match r2 with
    | none => none
    | some r2v =>
      match r2v with
      | ' ' :: '+' :: r3 =>
        let (d3, r4) := takeRun isPyDigit r3
        if d3 = [] then none else
        let r5 :=
          match r4 with
          | ',' :: r4b =>
            let (d4, r5b) := takeRun isPyDigit r4b
            if d4 = [] then none else some r5b
          | _ => some r4
        match r5 with
        | none => none
        | some r5v =>
          match r5v with
          | ' ' :: '@' :: '@' :: _ => some (digitsToNat d1, digitsToNat d3)
          | _ => none
      | _ => none
  | _ => none

/-- `re.search` of the hunk-header pattern: tries every start position from
the left and returns the first match. -/
def hunkHeaderSearch : Str → Option (Nat × Nat)
  | [] => hunkHeaderAt []
  | c :: rest =>
    match hunkHeaderAt (c :: rest) with
    | some r => some r
    | none => hunkHeaderSearch rest

/-! ### The `Param("Name", value);` search

`re.search(r'Param\("([^"]+)",\s*(".*?"|\S+)\)\s*;', line)` — the pattern
`PARAM_RE` shared by `_parse_params`, `_extract_param_changes_from_diff` and
`extract_param_from_line`.  Group 1 is the name (captured without quotes),
group 2 the raw value (a quoted string including its quotes, or a maximal
backtrackable non-whitespace token).  Determinism analysis: `([^"]+)` is a
maximal run because a shorter match is followed by another non-quote
character where `"` is required; the `\s*` runs are maximal because the
following pattern element always requires a non-whitespace character. -/

/-- Checks `\)\s*;` at the head of `t`. -/
def closeParenSemi (t : Str) : Bool :=
  match t with
  | ')' :: u =>
    match (takeRun isPySpace u).2 with
    | ';' :: _ => true
    | _ => false
  | _ => false

/-- Lazy scan for `".*?"` followed by `\)\s*;`: tries each closing quote from
the left (the dot can also match a quote that failed as a closer, so the scan
continues past failed candidates); the dot never matches a newline.
`acc` holds the reversed content scanned so far; called just after the
opening quote.  Returns group 2 including both quotes. -/
def paramAlt1 : Str → Str → Option Str
  | acc, '"' :: rest =>
    if closeParenSemi rest then some ('"' :: (acc.reverse ++ ['"']))
    else paramAlt1 ('"' :: acc) rest
  | _, '\n' :: _ => none
  | acc, c :: rest => paramAlt1 (c :: acc) rest
  | _, [] => none

/-- Greedy backtracking for `\S+` followed by `\)\s*;`: tries prefix lengths
of the maximal non-whitespace run from longest to shortest. -/
def paramAlt2Try (t : Str) : Nat → Option Str
  | 0 => none
  | j + 1 =>
    if closeParenSemi (t.drop (j + 1)) then some (t.take (j + 1))
    else paramAlt2Try t j

/-- The `\S+` alternative of the value group. -/
def paramAlt2 (t : Str) : Option Str :=
  paramAlt2Try t (takeRun (fun c => !isPySpace c) t).1.length

/-- Matches the `Param` pattern at the start of `s`. -/
def paramMatchAt (s : Str) : Option (Str × Str) :=
  match s with
  | 'P' :: 'a' :: 'r' :: 'a' :: 'm' :: '(' :: '"' :: rest =>
    let (g1, r1) := takeRun (fun c => c ≠ '"') rest
    if g1 = [] then none else
    match r1 with
    | '"' :: ',' :: r2 =>
      let r3 := (takeRun isPySpace r2).2
      let g2 :=
        match r3 with
        | '"' :: r4 =>
          match paramAlt1 [] r4 with
          | some g => some g
          | none => paramAlt2 r3
        | _ => paramAlt2 r3
      match g2 with
      | some g => some (g1, g)
      | none => none
    | _ => none
  | _ => none

/-- `re.search` of the `Param` pattern: first matching start position wins. -/
def paramSearch : Str → Option (Str × Str)
  | [] => none
  | c :: rest =>
    match paramMatchAt (c :: rest) with
    | some r => some r
    | none => paramSearch rest

/-! ### The generic function-call search

`re.search(r'^\s*(?!Param\b)(\w+)\s*\((.*?)\)\s*(?:;|\{)', line)` — the
pattern `PROP_RE`.  Because of the `^` anchor (and no multiline flag) the
search can only match at position 0. -/

/-- Checks `\s*(?:;|\{)` at the head of `t`. -/
def propEnd (t : Str) : Bool :=
  match (takeRun isPySpace t).2 with
  | ';' :: _ => true
  | '{' :: _ => true
  | _ => false

/-- Lazy scan for `(.*?)\)` followed by `\s*(?:;|\{)`: tries each closing
parenthesis from the left, continuing past failed candidates; the dot never
matches a newline.  Returns the argument text (group 2). -/
def propArgScan : Str → Str → Option Str
  | acc, ')' :: rest =>
    if propEnd rest then some acc.reverse else propArgScan (')' :: acc) rest
  | _, '\n' :: _ => none
  | acc, c :: rest => propArgScan (c :: acc) rest
  | _, [] => none

/-- The anchored search of the `PROP_RE` pattern, yielding (name, raw
argument text). -/
def propSearch (s : Str) : Option (Str × Str) :=
  let p1 := (takeRun isPySpace s).2
  let lookaheadHit :=
    match p1 with
    | 'P' :: 'a' :: 'r' :: 'a' :: 'm' :: rest =>
      match rest with
      | [] => true
      | c :: _ => !isPyWord c
    | _ => false
  if lookaheadHit then none else
  let (name, p2) := takeRun isPyWord p1
  if name = [] then none else
  match (takeRun isPySpace p2).2 with
  | '(' :: p4 =>
    match propArgScan [] p4 with
    | some args => some (name, args)
    | none => none
  | _ => none

/-! ### The INI key-value search

`re.search(r'^\s*([^=#\[\s]+?)\s*=\s*(.+?)\s*$', line)`, anchored at
position 0.  The lazy key group has a unique viable extent (the maximal run
of its character class, which excludes both `=` and whitespace).  For the
value: if anything after `=` is non-whitespace, the greedy leading `\s*`
and the lazy `(.+?)\s*$` capture exactly the text trimmed of surrounding
whitespace; if the remainder is whitespace-only but non-empty, backtracking
of the leading `\s*` lets the value group capture the single final
whitespace character; an empty remainder fails.  (Inputs are single lines,
so the newline subtleties of `.` and `$` do not arise.) -/

/-- The anchored INI `key = value` search, yielding the raw groups. -/
def iniSearch (s : Str) : Option (Str × Str) :=
  let p1 := (takeRun isPySpace s).2
  let (key, p2) := takeRun (fun c => !(c = '=' ∨ c = '#' ∨ c = '[' ∨ isPySpace c)) p1
  if key = [] then none else
  match (takeRun isPySpace p2).2 with
  | '=' :: rest =>
    if rest.any (fun c => !isPySpace c) then some (key, pyStrip rest)
    else
      match rest.getLast? with
      | some c => some (key, [c])
      | none => none
  | _ => none

/-! ### The JSON key-value search

`re.search(r'^\s*"([^"]+)":\s*(.+?)\s*,?\s*$', line)` from
`_extract_json_key_changes`, anchored at position 0. -/

/-- Checks that `u` matches `\s*,?\s*$` (at most one comma surrounded by
whitespace, to the end of the line). -/
def jsonSuffixOk (u : Str) : Bool :=
  match (takeRun isPySpace u).2 with
  | [] => true
  | ',' :: w => (takeRun isPySpace w).2 = []
  | _ => false

/-- Lazy scan for `(.+?)` with continuation check `ok`: shortest non-empty
prefix whose remainder satisfies `ok`; the dot never matches a newline. -/
def lazyGroupScan (ok : Str → Bool) : Str → Str → Option Str
  | _, '\n' :: _ => none
  | acc, c :: rest =>
    if ok rest then some (acc.reverse ++ [c]) else lazyGroupScan ok (c :: acc) rest
  | _, [] => none

/-- The anchored JSON `"key": value` search, yielding the raw groups. -/
def jsonKvSearch (s : Str) : Option (Str × Str) :=
  let p1 := (takeRun isPySpace s).2
  match p1 with
  | '"' :: r1 =>
    let (g1, r2) := takeRun (fun c => c ≠ '"') r1
    if g1 = [] then none else
    match r2 with
    | '"' :: ':' :: rest =>
      let rest2 := (takeRun isPySpace rest).2
      if rest2 ≠ [] then
        match lazyGroupScan jsonSuffixOk [] rest2 with
        | some g2 => some (g1, g2)
        | none => none
      else
        match rest.getLast? with
        | some c => some (g1, [c])
        | none => none
    | _ => none
  | _ => none

/-! ### Changed-line pair extraction

Embedding of `_extract_changed_lines` (parsing.py lines 53-156) as a fold of
a per-line step function over the split diff text, followed by a final flush
of any pending removal. -/

/-- One output tuple: `(old_line, new_line, old_line_num, new_line_num)`. -/
abbrev ChangedLine := Option Str × Option Str × Option Nat × Option Nat

/-- Decidable equality of change tuples, registered explicitly (the nested
product is one component deeper than automatic instance search reaches). -/
instance changedLineDecEq : DecidableEq ChangedLine := inferInstance

/-- The loop state of `_extract_changed_lines`: the accumulated `changes`
list, the two nullable line counters, and the pending-removal variables
`last_was_minus`, `last_minus_content`, `last_minus_line_num`. -/
structure EclState where
  changes : List ChangedLine
  oldLineNum : Option Nat
  newLineNum : Option Nat
  lastWasMinus : Bool
  lastMinusContent : Option Str
  lastMinusLineNum : Option Nat
deriving Repr, DecidableEq

/-- Initial state of the loop: empty changes, both counters null, no pending
removal. -/
def initEcl : EclState :=
  { changes := [], oldLineNum := none, newLineNum := none,
    lastWasMinus := false, lastMinusContent := none, lastMinusLineNum := none }

/-- The guard `last_was_minus and last_minus_content is not None and
last_minus_line_num is not None` used at every flush/pair site. -/
def pendingCond (st : EclState) : Bool :=
  st.lastWasMinus && st.lastMinusContent.isSome && st.lastMinusLineNum.isSome

/-- Which branch of the loop body a line takes, mirroring the order of the
checks in the source: hunk header (with its parse and its sanity bound on
both start numbers), the `---`/`+++` header skip, the blank-line skip, the
`-`-line branch, the `+`-line branch, and the context/other branch. -/
inductive EclLineClass where
  | hunkValid (a c : Nat)
  | hunkBad
  | skipLine
  | minusLine (content : Str)
  | plusLine (content : Str)
  | contextLine
deriving Repr, DecidableEq

/-- Classifies a diff line exactly as the chain of `if` tests at parsing.py
lines 74-107/117 does. -/
def classifyEclLine (l : Str) : EclLineClass :=
  if strStarts l ['@', '@'] then
    match hunkHeaderSearch l with
    | some (a, c) =>
      if a > 0 && c > 0 && a ≤ 100000000 && c ≤ 100000000 then .hunkValid a c
      else .hunkBad
    | none => .hunkBad
  else if strStarts l ['-', '-', '-'] || strStarts l ['+', '+', '+'] then .skipLine
  else if l = [] then .skipLine
  else if strStarts l ['-'] && !strStarts l ['-', '-'] then .minusLine (l.drop 1)
  else if strStarts l ['+'] && !strStarts l ['+', '+'] then .plusLine (l.drop 1)
  else .contextLine

/-- The loop body of `_extract_changed_lines` for one line. -/
def eclStep (st : EclState) (l : Str) : EclState :=
  match classifyEclLine l with
  | .hunkValid a c =>
    { st with oldLineNum := some a, newLineNum := some c,
              lastWasMinus := false, lastMinusContent := none, lastMinusLineNum := none }
  | .hunkBad =>
    { st with oldLineNum := none, newLineNum := none,
              lastWasMinus := false, lastMinusContent := none, lastMinusLineNum := none }
  | .skipLine => st
  | .minusLine content =>
    match st.oldLineNum with
    | some k =>
      { st with lastMinusContent := some content, lastMinusLineNum := some k,
                lastWasMinus := true, oldLineNum := some (k + 1) }
    | none => st
  | .plusLine content =>
    if pendingCond st then
      match st.newLineNum with
      | some n =>
        { st with
          changes := (st.changes ++ [(st.lastMinusContent, some content, st.lastMinusLineNum, some n)]),
          newLineNum := some (n + 1),
          lastWasMinus := false, lastMinusContent := none, lastMinusLineNum := none }
      | none =>
        { st with
          changes := (st.changes ++ [(st.lastMinusContent, some content, st.lastMinusLineNum, none)]),
          lastWasMinus := false, lastMinusContent := none, lastMinusLineNum := none }
    else
      match st.newLineNum with
      | some n =>
        { st with changes := (st.changes ++ [(none, some content, none, some n)]),
                  newLineNum := some (n + 1) }
      | none =>
        { st with changes := (st.changes ++ [(none, some content, none, none)]) }
  | .contextLine =>
    let st1 :=
      if pendingCond st then
        { st with
          changes := (st.changes ++ [(st.lastMinusContent, none, st.lastMinusLineNum, none)]),
          lastWasMinus := false, lastMinusContent := none, lastMinusLineNum := none }
      else st
    let st2 :=
      match st1.oldLineNum with
      | some k => { st1 with oldLineNum := some (k + 1) }
      | none => st1
    match st2.newLineNum with
    | some n => { st2 with newLineNum := some (n + 1) }
    | none => st2

/-- `_extract_changed_lines(diff_str)`: folds the loop body over the split
lines, then flushes a still-pending removal at end of input. -/
def extract_changed_lines (diff_str : Str) : List ChangedLine :=
  let fin := (pySplitlines diff_str).foldl eclStep initEcl
  if pendingCond fin then
    fin.changes ++ [(fin.lastMinusContent, none, fin.lastMinusLineNum, none)]
  else fin.changes

/-! ### Per-line parameter extraction

Embeddings of the nested helper `extract_param_from_line`
(parsing.py lines 234-274) and of `_parse_params` (lines 7-50). -/

/-- The post-processing `value.strip()` followed by the quote-removal step,
applied by every branch of the extractors. -/
def normValue (v : Str) : Str := stripQuotes (pyStrip v)

/-- The multi-argument heuristic of `extract_param_from_line`: split the
stripped value on commas, strip each part, and take the last part stripped
again (`parts = [p.strip() for p in value.split(',')]`, `parts[-1].strip()`).
Applied only when the stripped value contains a comma. -/
def lastCommaArg (v : Str) : Str :=
  pyStrip (((splitOnComma v).map pyStrip).getLastD [])

/-- `extract_param_from_line(line)` (parsing.py lines 234-274): tries the
`Param` pattern, then the function-call pattern (with the last-comma-argument
heuristic), then the INI pattern; returns `(None, None)` — modelled `none` —
when the line is falsy or nothing matches. -/
def extract_param_from_line (line : Str) : Option (Str × Str) :=
  if line = [] then none
  else
    match paramSearch line with
    | some (name, v) => some (name, normValue v)
    | none =>
      match propSearch line with
      | some (name, v) =>
        let v1 := pyStrip v
        let v2 := if v1.contains ',' then lastCommaArg v1 else v1
        some (name, stripQuotes v2)
      | none =>
        match iniSearch line with
        | some (name, v) => some (pyStrip name, normValue v)
        | none => none

/-- The per-line parse of `_parse_params` (parsing.py lines 27-48): the
`Param` pattern first, else the function-call pattern; no comma heuristic and
no INI pattern in this parser. -/
def parseParamsLine (line : Str) : Option (Str × Str) :=
  match paramSearch line with
  | some (name, v) => some (name, normValue v)
  | none =>
    match propSearch line with
    | some (name, v) => some (name, normValue v)
    | none => none

/-- Python `dict` assignment `result[name] = value` on an insertion-ordered
association list: replaces the value in place if the key is present,
otherwise appends. -/
def dictSet : List (Str × Str) → Str → Str → List (Str × Str)
  | [], n, v => [(n, v)]
  | (k, w) :: rest, n, v =>
    if k = n then (k, v) :: rest else (k, w) :: dictSet rest n v

/-- Python `dict` lookup. -/
def dictGet (n : Str) : List (Str × Str) → Option Str
  | [] => none
  | (k, w) :: rest => if k = n then some w else dictGet n rest

/-- `_parse_params(lines)` (parsing.py lines 7-50): a name-to-value mapping
built line by line; a later occurrence of a name overwrites the earlier
value (dict semantics), keeping first-insertion order. -/
def parse_params (lines : List Str) : List (Str × Str) :=
  lines.foldl
    (fun acc l =>
      match parseParamsLine l with
      | some (n, v) => dictSet acc n v
      | none => acc)
    []

/-! ### Parameter-change extraction from changed lines

Embeddings of `_extract_param_changes_from_diff` (parsing.py lines 204-291)
and `_extract_json_key_changes` (lines 159-201). -/

/-- Classification of one changed-line pair in generic mode (parsing.py
lines 276-289), including Python truthiness of the extracted names: an empty
name is falsy (the patterns in fact never produce one). -/
def pcClassify (op np : Option (Str × Str)) : Option (Str × Str × Str) :=
  match op, np with
  | some (a, av), some (b, bv) =>
    if a ≠ [] ∧ b ≠ [] ∧ a = b ∧ av ≠ bv then some (a, av, bv)
    else if b ≠ [] ∧ a = [] then some (b, [], bv)
    else if a ≠ [] ∧ b = [] then some (a, av, [])
    else none
  | some (a, av), none => if a ≠ [] then some (a, av, []) else none
  | none, some (b, bv) => if b ≠ [] then some (b, [], bv) else none
  | none, none => none

/-- The guard `extract_param_from_line(old_line) if old_line else
(None, None)`: Python truthiness makes both a null and an empty line skip
extraction. -/
def sideParam (side : Option Str) : Option (Str × Str) :=
  match side with
  | some l => if l = [] then none else extract_param_from_line l
  | none => none

/-- The value post-processing of `_extract_json_key_changes`:
`.strip().rstrip(',').strip()` then quote removal. -/
def jsonValueNorm (v : Str) : Str :=
  stripQuotes (pyStrip (rstripComma (pyStrip v)))

/-- One side of `_extract_json_key_changes` (parsing.py lines 173-189):
key and value from a truthy line matching the JSON key-value pattern. -/
def jsonSideKV (side : Option Str) : Option (Str × Str) :=
  match side with
  | some l =>
    if l = [] then none
    else
      match jsonKvSearch l with
      | some (k, v) => some (k, jsonValueNorm v)
      | none => none
  | none => none

/-- `_extract_json_key_changes(changed_lines)` (parsing.py lines 159-201);
the pair classification (lines 192-199) has the same shape as the generic
one. -/
def extract_json_key_changes (changedLines : List ChangedLine) :
    List (Str × Str × Str) :=
  changedLines.filterMap (fun cl => pcClassify (jsonSideKV cl.1) (jsonSideKV cl.2.1))

/-- `_extract_param_changes_from_diff(changed_lines, is_json)`
(parsing.py lines 204-291). -/
def extract_param_changes_from_diff (changedLines : List ChangedLine)
    (isJson : Bool) : List (Str × Str × Str) :=
  if isJson then extract_json_key_changes changedLines
  else changedLines.filterMap (fun cl => pcClassify (sideParam cl.1) (sideParam cl.2.1))

/-- The whole-file fallback of `compare_plain_text_files` (text_comparison.py
lines 107-112): compare the two independent parameter maps, emitting a
modification triple for each name of the original map that is present in the
modified map with a different value. -/
def fallbackParamChanges (origText modText : List Str) : List (Str × Str × Str) :=
  let origParams := parse_params origText
  let modParams := parse_params modText
  origParams.filterMap (fun nv =>
    match dictGet nv.1 modParams with
    | some mv => if mv ≠ nv.2 then some (nv.1, nv.2, mv) else none
    | none => none)

/-! ### Text/binary classification and tolerant decoding

Embeddings of `_is_text` and `_decode_text` (utils.py): bytes are modelled
as `List Nat`.  Decoding replaces each maximal invalid subpart with U+FFFD
(the standard policy of Python's `errors="replace"` handler). -/

/-- UTF-8 continuation byte test. -/
def utf8Cont (b : Nat) : Bool := 0x80 ≤ b && b ≤ 0xBF

/-- Strict UTF-8 validity (no NUL-specific handling; overlongs and
surrogates rejected), as used by Python's strict `bytes.decode("utf-8")`. -/
def utf8Valid : List Nat → Bool
  | [] => true
  | b :: rest =>
    if b < 0x80 then utf8Valid rest
    else if 0xC2 ≤ b && b ≤ 0xDF then
      match rest with
      | b2 :: rest2 => utf8Cont b2 && utf8Valid rest2
      | [] => false
    else if 0xE0 ≤ b && b ≤ 0xEF then
      match rest with
      | b2 :: b3 :: rest3 =>
        let okB2 :=
          if b = 0xE0 then 0xA0 ≤ b2 && b2 ≤ 0xBF
          else if b = 0xED then 0x80 ≤ b2 && b2 ≤ 0x9F
          else utf8Cont b2
        okB2 && utf8Cont b3 && utf8Valid rest3
      | _ => false
    else if 0xF0 ≤ b && b ≤ 0xF4 then
      match rest with
      | b2 :: b3 :: b4 :: rest4 =>
        let okB2 :=
          if b = 0xF0 then 0x90 ≤ b2 && b2 ≤ 0xBF
          else if b = 0xF4 then 0x80 ≤ b2 && b2 ≤ 0x8F
          else utf8Cont b2
        okB2 && utf8Cont b3 && utf8Cont b4 && utf8Valid rest4
      | _ => false
    else false

/-- `_is_text(data)` (utils.py lines 4-12): false if a NUL byte is present,
otherwise true iff strict UTF-8 decoding succeeds. -/
def is_text (data : List Nat) : Bool :=
  !(data.contains 0) && utf8Valid data

/-- UTF-8 decoding with replacement of invalid subparts by U+FFFD,
modelling `data.decode("utf-8", errors="replace")` (`_decode_text`,
utils.py lines 15-17). -/
def utf8Decode : List Nat → Str
  | [] => []
  | b :: rest =>
    if b < 0x80 then Char.ofNat b :: utf8Decode rest
    else if 0xC2 ≤ b && b ≤ 0xDF then
      match rest with
      | b2 :: rest2 =>
        if utf8Cont b2 then Char.ofNat ((b % 0x20) * 64 + b2 % 0x40) :: utf8Decode rest2
        else '�' :: utf8Decode (b2 :: rest2)
      | [] => ['�']
    else if 0xE0 ≤ b && b ≤ 0xEF then
      match rest with
      | b2 :: rest2 =>
        let okB2 :=
          if b = 0xE0 then 0xA0 ≤ b2 && b2 ≤ 0xBF
          else if b = 0xED then 0x80 ≤ b2 && b2 ≤ 0x9F
          else utf8Cont b2
        if okB2 then
          match rest2 with
          | b3 :: rest3 =>
            if utf8Cont b3 then
              Char.ofNat ((b % 0x10) * 4096 + (b2 % 0x40) * 64 + b3 % 0x40) :: utf8Decode rest3
            else '�' :: utf8Decode (b3 :: rest3)
          | [] => ['�']
        else '�' :: utf8Decode (b2 :: rest2)
      | [] => ['�']
    else if 0xF0 ≤ b && b ≤ 0xF4 then
      match rest with
      | b2 :: rest2 =>
        let okB2 :=
          if b = 0xF0 then 0x90 ≤ b2 && b2 ≤ 0xBF
          else if b = 0xF4 then 0x80 ≤ b2 && b2 ≤ 0x8F
          else utf8Cont b2
        if okB2 then
          match rest2 with
          | b3 :: rest3 =>
            if utf8Cont b3 then
              match rest3 with
              | b4 :: rest4 =>
                if utf8Cont b4 then
                  Char.ofNat ((b % 8) * 262144 + (b2 % 0x40) * 4096 + (b3 % 0x40) * 64 + b4 % 0x40)
                    :: utf8Decode rest4
                else '�' :: utf8Decode (b4 :: rest4)
              | [] => ['�']
            else '�' :: utf8Decode (b3 :: rest3)
          | [] => ['�']
        else '�' :: utf8Decode (b2 :: rest2)
      | [] => ['�']
    else '�' :: utf8Decode rest

/-- `_decode_text(data)` (utils.py lines 15-17). -/
def decode_text (data : List Nat) : Str := utf8Decode data

/-! ### JSON normalization

`_normalize_json` (text_comparison.py lines 13-24) applies the standard
library `json.loads` / `json.dumps(indent=2, sort_keys=True,
ensure_ascii=False)`.  The standard library is not part of this repository;
it is modelled here by an explicit JSON value type, a recursive-descent
parser following the JSON grammar accepted by `json.loads` (with two
documented restrictions: numbers are modelled for integer literals only —
fractional/exponent literals and the NaN/Infinity extensions parse to
failure — and lone surrogate escapes are outside the model), and a
serializer reproducing the 2-space-indent, sorted-keys output format. -/

/-- JSON values.  Object member lists are insertion-ordered with unique keys
(duplicates resolved at parse time, last value winning, as `dict` does). -/
inductive Json where
  | jnull
  | jbool (b : Bool)
  | jnum (n : Int)
  | jstr (s : Str)
  | jarr (elems : List Json)
  | jobj (members : List (Str × Json))
deriving Repr

/-- JSON inter-token whitespace (`json.loads` skips exactly space, tab,
newline, carriage return). -/
def jsonWsDrop (s : Str) : Str :=
  s.dropWhile (fun c => c = ' ' ∨ c = '\t' ∨ c = '\n' ∨ c = '\r')

/-- Hexadecimal digit value, for `\uXXXX` escapes. -/
def hexVal (c : Char) : Option Nat :=
  if '0' ≤ c ∧ c ≤ '9' then some (c.toNat - '0'.toNat)
  else if 'a' ≤ c ∧ c ≤ 'f' then some (c.toNat - 'a'.toNat + 10)
  else if 'A' ≤ c ∧ c ≤ 'F' then some (c.toNat - 'A'.toNat + 10)
  else none

/-- Parses a JSON string body (after the opening quote): strict mode, so
unescaped control characters below U+0020 are rejected; surrogate pairs in
`\u` escapes are combined. -/
def parseJsonString : Nat → Str → Option (Str × Str)
  | 0, _ => none
  | _ + 1, '"' :: rest => some ([], rest)
  | fuel + 1, '\\' :: e :: rest =>
    match e with
    | '"' => (parseJsonString fuel rest).map (fun p => ('"' :: p.1, p.2))
    | '\\' => (parseJsonString fuel rest).map (fun p => ('\\' :: p.1, p.2))
    | '/' => (parseJsonString fuel rest).map (fun p => ('/' :: p.1, p.2))
    | 'b' => (parseJsonString fuel rest).map (fun p => (Char.ofNat 8 :: p.1, p.2))
    | 'f' => (parseJsonString fuel rest).map (fun p => (Char.ofNat 12 :: p.1, p.2))
    | 'n' => (parseJsonString fuel rest).map (fun p => ('\n' :: p.1, p.2))
    | 'r' => (parseJsonString fuel rest).map (fun p => ('\r' :: p.1, p.2))
    | 't' => (parseJsonString fuel rest).map (fun p => ('\t' :: p.1, p.2))
    | 'u' =>
      match rest with
      | h1 :: h2 :: h3 :: h4 :: rest2 =>
        match hexVal h1, hexVal h2, hexVal h3, hexVal h4 with
        | some v1, some v2, some v3, some v4 =>
          let cp := ((v1 * 16 + v2) * 16 + v3) * 16 + v4
          if 0xD800 ≤ cp ∧ cp ≤ 0xDBFF then
            match rest2 with
            | '\\' :: 'u' :: g1 :: g2 :: g3 :: g4 :: rest3 =>
              match hexVal g1, hexVal g2, hexVal g3, hexVal g4 with
              | some w1, some w2, some w3, some w4 =>
                let cp2 := ((w1 * 16 + w2) * 16 + w3) * 16 + w4
                if 0xDC00 ≤ cp2 ∧ cp2 ≤ 0xDFFF then
                  let c := 0x10000 + (cp - 0xD800) * 0x400 + (cp2 - 0xDC00)
                  (parseJsonString fuel rest3).map (fun p => (Char.ofNat c :: p.1, p.2))
                else none
              | _, _, _, _ => none
            | _ => none
          else if 0xDC00 ≤ cp ∧ cp ≤ 0xDFFF then none
          else (parseJsonString fuel rest2).map (fun p => (Char.ofNat cp :: p.1, p.2))
        | _, _, _, _ => none
      | _ => none
    | _ => none
  | fuel + 1, c :: rest =>
    if c.toNat < 0x20 then none
    else (parseJsonString fuel rest).map (fun p => (c :: p.1, p.2))
  | _, [] => none

/-- Parses a JSON integer literal `-?(0|[1-9][0-9]*)`; fails when a
fraction or exponent follows (model restriction, see the section comment). -/
def parseJsonInt (s : Str) : Option (Int × Str) :=
  let (negSign, s1) :=
    match s with
    | '-' :: t => (true, t)
    | _ => (false, s)
  let core : Option (Nat × Str) :=
    match s1 with
    | '0' :: t => some (0, t)
    | c :: _ =>
      if '1' ≤ c ∧ c ≤ '9' then
        let (ds, t) := takeRun isPyDigit s1
        some (digitsToNat ds, t)
      else none
    | [] => none
  match core with
  | some (n, t) =>
    match t with
    | c :: _ => if c = '.' ∨ c = 'e' ∨ c = 'E' then none else some (if negSign then -(n : Int) else (n : Int), t)
    | [] => some (if negSign then -(n : Int) else (n : Int), t)
  | none => none

/-- `dict` assignment for object members (later duplicate key wins, position
of first insertion kept). -/
def objSet : List (Str × Json) → Str → Json → List (Str × Json)
  | [], n, v => [(n, v)]
  | (k, w) :: rest, n, v =>
    if k = n then (k, v) :: rest else (k, w) :: objSet rest n v

mutual

/-- Parses one JSON value at the head of the input (whitespace already
skipped by the caller). -/
def parseJsonValue : Nat → Str → Option (Json × Str)
  | 0, _ => none
  | fuel + 1, s =>
    match s with
    | '"' :: rest => (parseJsonString fuel rest).map (fun p => (Json.jstr p.1, p.2))
    | '{' :: rest =>
      let r1 := jsonWsDrop rest
      match r1 with
      | '}' :: r2 => some (Json.jobj [], r2)
      | _ => (parseJsonMembers fuel r1 []).map (fun p => (Json.jobj p.1, p.2))
    | '[' :: rest =>
      let r1 := jsonWsDrop rest
      match r1 with
      | ']' :: r2 => some (Json.jarr [], r2)
      | _ => (parseJsonElems fuel r1).map (fun p => (Json.jarr p.1, p.2))
    | 't' :: 'r' :: 'u' :: 'e' :: rest => some (Json.jbool true, rest)
    | 'f' :: 'a' :: 'l' :: 's' :: 'e' :: rest => some (Json.jbool false, rest)
    | 'n' :: 'u' :: 'l' :: 'l' :: rest => some (Json.jnull, rest)
    | _ => (parseJsonInt s).map (fun p => (Json.jnum p.1, p.2))

/-- Parses the non-empty member list of an object, accumulating into a
`dict`-style association list. -/
def parseJsonMembers : Nat → Str → List (Str × Json) → Option (List (Str × Json) × Str)
  | 0, _, _ => none
  | fuel + 1, s, acc =>
    match s with
    | '"' :: rest =>
      match parseJsonString fuel rest with
      | some (key, r1) =>
        match jsonWsDrop r1 with
        | ':' :: r2 =>
          match parseJsonValue fuel (jsonWsDrop r2) with
          | some (v, r3) =>
            let acc2 := objSet acc key v
            match jsonWsDrop r3 with
            | ',' :: r4 => parseJsonMembers fuel (jsonWsDrop r4) acc2
            | '}' :: r4 => some (acc2, r4)
            | _ => none
          | none => none
        | _ => none
      | none => none
    | _ => none

/-- Parses the non-empty element list of an array. -/
def parseJsonElems : Nat → Str → Option (List Json × Str)
  | 0, _ => none
  | fuel + 1, s =>
    match parseJsonValue fuel s with
    | some (v, r1) =>
      match jsonWsDrop r1 with
      | ',' :: r2 => (parseJsonElems fuel (jsonWsDrop r2)).map (fun p => (v :: p.1, p.2))
      | ']' :: r2 => some ([v], r2)
      | _ => none
    | none => none

end

/-- `json.loads(content)` in the model: whitespace around a single top-level
value, nothing trailing. -/
def parseJson (s : Str) : Option Json :=
  match parseJsonValue (2 * s.length + 8) (jsonWsDrop s) with
  | some (v, rest) => if jsonWsDrop rest = [] then some v else none
  | none => none

/-- Lexicographic order on strings by code point, Python's `<` on `str`
as used by `sorted` for `sort_keys=True`. -/
def lexLe : Str → Str → Bool
  | [], _ => true
  | _ :: _, [] => false
  | a :: s, b :: t => if a < b then true else if b < a then false else lexLe s t

/-- Insertion step of the key sort. -/
def insPair (p : Str × Json) : List (Str × Json) → List (Str × Json)
  | [] => [p]
  | q :: qs => if lexLe p.1 q.1 then p :: q :: qs else q :: insPair p qs

/-- Insertion sort of object members by key. -/
def insSortPairs : List (Str × Json) → List (Str × Json)
  | [] => []
  | p :: ps => insPair p (insSortPairs ps)

mutual

/-- Recursively sorts every object's members by key; array element order is
preserved (`sort_keys=True` sorts objects only). -/
def sortKeysRec : Json → Json
  | .jnull => .jnull
  | .jbool b => .jbool b
  | .jnum n => .jnum n
  | .jstr s => .jstr s
  | .jarr xs => .jarr (sortKeysList xs)
  | .jobj kvs => .jobj (insSortPairs (sortKeysPairs kvs))

/-- Maps `sortKeysRec` over array elements. -/
def sortKeysList : List Json → List Json
  | [] => []
  | x :: xs => sortKeysRec x :: sortKeysList xs

/-- Maps `sortKeysRec` over member values. -/
def sortKeysPairs : List (Str × Json) → List (Str × Json)
  | [] => []
  | kv :: kvs => (kv.1, sortKeysRec kv.2) :: sortKeysPairs kvs

end

/-- Lowercase hexadecimal digit. -/
def hexDigit (n : Nat) : Char :=
  if n < 10 then Char.ofNat ('0'.toNat + n) else Char.ofNat ('a'.toNat + n - 10)

/-- The string-character escaping of `json.dumps` with
`ensure_ascii=False`: backslash, quote, the five short escapes, `\u00xx`
for the remaining control characters, everything else verbatim. -/
def escChar (c : Char) : Str :=
  if c = '\\' then ['\\', '\\']
  else if c = '"' then ['\\', '"']
  else if c = '\n' then ['\\', 'n']
  else if c = '\t' then ['\\', 't']
  else if c = '\r' then ['\\', 'r']
  else if c.toNat = 8 then ['\\', 'b']
  else if c.toNat = 12 then ['\\', 'f']
  else if c.toNat < 0x20 then ['\\', 'u', '0', '0', hexDigit (c.toNat / 16), hexDigit (c.toNat % 16)]
  else [c]

/-- A serialized JSON string, with quotes. -/
def encStr (s : Str) : Str :=
  '"' :: s.foldr (fun c acc => escChar c ++ acc) ['"']

/-- Decimal digits of a natural number (fuel-based helper). -/
def natDigitsAux : Nat → Nat → Str
  | 0, _ => []
  | fuel + 1, n =>
    if n < 10 then [Char.ofNat ('0'.toNat + n)]
    else natDigitsAux fuel (n / 10) ++ [Char.ofNat ('0'.toNat + n % 10)]

/-- Decimal rendering of a natural number. -/
def natToStr (n : Nat) : Str := natDigitsAux (n + 1) n

/-- Decimal rendering of an integer (Python `int` serialization). -/
def intToStr : Int → Str
  | .ofNat n => natToStr n
  | .negSucc m => '-' :: natToStr (m + 1)

/-- The indentation prefix at nesting level `lvl` for `indent=2`. -/
def indentStr (lvl : Nat) : Str := List.replicate (2 * lvl) ' '

mutual

/-- Serialization at nesting level `lvl` in the `json.dumps(indent=2,
ensure_ascii=False)` format: empty containers inline, non-empty containers
with one item per line, item separator `,`, key separator `: `. -/
def renderJson : Nat → Json → Str
  | _, .jnull => lit "null"
  | _, .jbool true => lit "true"
  | _, .jbool false => lit "false"
  | _, .jnum n => intToStr n
  | _, .jstr s => encStr s
  | _, .jarr [] => lit "[]"
  | lvl, .jarr (x :: xs) =>
    '[' :: '\n' :: (indentStr (lvl + 1) ++ renderJson (lvl + 1) x ++ renderArrTail (lvl + 1) xs
      ++ '\n' :: (indentStr lvl ++ [']']))
  | _, .jobj [] => lit "\x7b\x7d"
  | lvl, .jobj (kv :: kvs) =>
    '\x7b' :: '\n' :: (indentStr (lvl + 1) ++ renderMember (lvl + 1) kv ++ renderObjTail (lvl + 1) kvs
      ++ '\n' :: (indentStr lvl ++ ['\x7d']))

/-- Remaining array items, each on its own line. -/
def renderArrTail : Nat → List Json → Str
  | _, [] => []
  | lvl, x :: xs => ',' :: '\n' :: (indentStr lvl ++ renderJson lvl x ++ renderArrTail lvl xs)

/-- One `"key": value` member. -/
def renderMember : Nat → Str × Json → Str
  | lvl, kv => encStr kv.1 ++ ':' :: ' ' :: renderJson lvl kv.2

/-- Remaining object members, each on its own line. -/
def renderObjTail : Nat → List (Str × Json) → Str
  | _, [] => []
  | lvl, kv :: kvs => ',' :: '\n' :: (indentStr lvl ++ renderMember lvl kv ++ renderObjTail lvl kvs)

end

/-- `json.dumps(v, indent=2, sort_keys=True, ensure_ascii=False)`. -/
def jsonDumps (v : Json) : Str := renderJson 0 (sortKeysRec v)

/-- `_normalize_json(content)` (text_comparison.py lines 13-24): the
canonical re-serialization on parse success, null on any parse failure. -/
def normalize_json (content : Str) : Option Str :=
  match parseJson content with
  | some v => some (jsonDumps v)
  | none => none

/-! ### The file-pair comparator

Embedding of `compare_plain_text_files` (text_comparison.py lines 27-127)
and of the `FileDiff` data model (models.py lines 7-15).  File reads are
modelled by `Option (List Nat)` arguments (`none` = unreadable; both `IOError`
branches of the source catch the failure).  The standard-library diff
generator `difflib.unified_diff` is an external collaborator: the comparator
is parameterized by a diff-generator function `mkDiff`, so every theorem
below holds for any diff generator. -/

/-- The `FileDiff` dataclass (models.py lines 7-15), with its defaults. -/
structure FileDiff where
  path : Str
  kind : Str
  diff : Option Str := none
  param_changes : Option (List (Str × Str × Str)) := none
  diff_truncated : Bool := false
  changed_lines : Option (List ChangedLine) := none
deriving Repr, DecidableEq

/-- Python `param_changes or None`: an empty list becomes null. -/
def listOrNone (l : List (Str × Str × Str)) : Option (List (Str × Str × Str)) :=
  if l = [] then none else some l

/-- `pathlib.PurePath.suffix` on a file name: the part from the last dot,
empty when the dot is the first character or the last character or absent. -/
def pathSuffix (s : Str) : Str :=
  match s.reverse.findIdx? (fun c => c = '.') with
  | some r =>
    let i := s.length - 1 - r
    if 0 < i ∧ i < s.length - 1 then s.drop i else []
  | none => []

/-- The recognized JSON-like extension set (text_comparison.py line 72). -/
def jsonLikeExts : List Str := [lit ".json", lit ".gui", lit ".cfg"]

/-- The JSON-normalization gate (text_comparison.py lines 69-79): when the
lowercased suffix of the original name is JSON-like and both normalizations
are truthy (a non-null, non-empty string), both contents are replaced by
their normalized forms and JSON mode is set; otherwise the decoded contents
are kept with JSON mode off. -/
def chooseContents (origName : Str) (origContent modContent : Str) :
    Str × Str × Bool :=
  if asciiLower (pathSuffix origName) ∈ jsonLikeExts then
    match normalize_json origContent, normalize_json modContent with
    | some no, some nm =>
      if no ≠ [] ∧ nm ≠ [] then (no, nm, true) else (origContent, modContent, false)
    | some _, none => (origContent, modContent, false)
    | none, some _ => (origContent, modContent, false)
    | none, none => (origContent, modContent, false)
  else (origContent, modContent, false)

/-- The text preparation of the comparator for a both-text pair: decode
both byte strings, apply the JSON-normalization gate, split into lines
(text_comparison.py lines 66-82). -/
def comparatorContents (origName : Str) (ob mb : List Nat) :
    List Str × List Str × Bool :=
  let r := chooseContents origName (decode_text ob) (decode_text mb)
  (pySplitlines r.1, pySplitlines r.2.1, r.2.2)

/-- `compare_plain_text_files` (text_comparison.py lines 27-127).
`mkDiff` stands for `difflib.unified_diff` (arguments: original lines,
modified lines, fromfile label, tofile label, context); its output lines are
joined with newlines as at line 98.  `origBytes`/`modBytes` are the two file
reads, `none` when the read raises. -/
def compare_plain_text_files
    (mkDiff : List Str → List Str → Str → Str → Nat → List Str)
    (origName modName : Str)
    (origBytes modBytes : Option (List Nat))
    (context : Nat) (includeDiff : Bool) (maxTextBytes : Int) : List FileDiff :=
  match origBytes with
  | none => []
  | some ob =>
    match modBytes with
    | none =>
      if is_text ob then [{ path := origName, kind := lit "removed", diff := none }]
      else []
    | some mb =>
      if ob = mb then []
      else if is_text ob && is_text mb then
        let r := comparatorContents origName ob mb
        let origText := r.1
        let modText := r.2.1
        let isJson := r.2.2
        if includeDiff then
          if (ob.length : Int) ≤ maxTextBytes ∧ (mb.length : Int) ≤ maxTextBytes then
            let diffStr := joinNL (mkDiff origText modText
              (lit "original/" ++ origName) (lit "modded/" ++ modName) context)
            let changedLines := extract_changed_lines diffStr
            let paramChanges :=
              if changedLines ≠ [] then
                extract_param_changes_from_diff changedLines isJson
              else []
            [{ path := origName, kind := lit "modified-text", diff := some diffStr,
               param_changes := listOrNone paramChanges, diff_truncated := false,
               changed_lines := some changedLines }]
          else
            [{ path := origName, kind := lit "modified-text", diff := none,
               param_changes := listOrNone (fallbackParamChanges origText modText),
               diff_truncated := true, changed_lines := none }]
        else
          [{ path := origName, kind := lit "modified-text", diff := none,
             param_changes := none, diff_truncated := false, changed_lines := none }]
      else [{ path := origName, kind := lit "modified-binary" }]

/-! ## Theorems

Helper projections for the coverage statements. -/

/-- Old-side contents of the extracted tuples, in output order. -/
def oldContents (cs : List ChangedLine) : List Str :=
  cs.filterMap (fun c => c.1)

/-- New-side contents of the extracted tuples, in output order. -/
def newContents (cs : List ChangedLine) : List Str :=
  cs.filterMap (fun c => c.2.1)

/-- Contents of the `+`-prefixed body lines of a diff text, as the extractor
delimits them: prefix `+` but not `++`.  This is strictly narrower than the
set of `+`-prefixed body lines of the diff format — a genuine addition whose
content begins with `+` is rendered `++…` by the diff generator, is a body
line, and falls outside this delimitation (the extractor drops it; see the
C1 counterexample and `plusBodyNatural`). -/
def plusBodyContents (d : Str) : List Str :=
  (pySplitlines d).filterMap (fun l =>
    if strStarts l ['+'] && !strStarts l ['+', '+'] then some (l.drop 1) else none)

/-- Contents of the `+`-prefixed body lines under the natural reading of a
unified diff: every line starting with `+` except the `+++` file header. -/
def plusBodyNatural (d : Str) : List Str :=
  (pySplitlines d).filterMap (fun l =>
    if strStarts l ['+'] && !strStarts l ['+', '+', '+'] then some (l.drop 1) else none)

/-- Contents of the `-`-prefixed body lines of a diff text, as the extractor
delimits them (prefix `-` but not `--`). -/
def minusBodyContents (d : Str) : List Str :=
  (pySplitlines d).filterMap (fun l =>
    if strStarts l ['-'] && !strStarts l ['-', '-'] then some (l.drop 1) else none)

/-- Contents of the `-`-prefixed body lines under the natural reading of a
unified diff: every line starting with `-` except the `---` file header. -/
def minusBodyNatural (d : Str) : List Str :=
  (pySplitlines d).filterMap (fun l =>
    if strStarts l ['-'] && !strStarts l ['-', '-', '-'] then some (l.drop 1) else none)

/-- A hunk whose body is a run of two `-` lines followed by one `+` line. -/
def ceDiffRun : Str := lit "@@ -1,2 +1,1 @@\n-a\n-b\n+c"

/-- The same shape with a trailing context line, so that any pending removal
is flushed. -/
def ceDiffRunCtx : Str := lit "@@ -1,3 +1,2 @@\n-a\n-b\n+c\n ctx"

/-- A diff whose hunk header does not parse, followed by a removal and an
addition. -/
def ceBadHeader : Str := lit "@@ bogus @@\n-a\n+b"

/-- A hunk whose single body line is the addition of a line whose content
itself begins with `+`: the diff generator renders it `++x`. -/
def cePlusPlus : Str := lit "@@ -1,0 +1,1 @@\n++x"

/-- C1, counterexample, refuting both directions of the claim.  Minus side:
on a hunk `-a`, `-b`, `+c` with a valid header, the extractor emits only the
pair `(b, c)`, so the old-side multiset is `{b}` while the `-`-prefixed body
lines are `{a, b}` — the removal `a` is dropped.  Plus side: the body line
`++x` (an added line whose content begins with `+`) is a `+`-prefixed body
line, but the extractor classifies it as context and emits nothing, so the
new-side multiset is empty while the `+`-prefixed body lines are `{+x}`. -/
theorem C1_changed_line_coverage_counterexample :
    ¬ ((↑(oldContents (extract_changed_lines ceDiffRun)) : Multiset Str) =
      ↑(minusBodyNatural ceDiffRun)) ∧
    ¬ ((↑(newContents (extract_changed_lines cePlusPlus)) : Multiset Str) =
      ↑(plusBodyNatural cePlusPlus)) ∧
    extract_changed_lines cePlusPlus = [] ∧
    plusBodyNatural cePlusPlus = [lit "+x"] := by
  refine ⟨by decide, by decide, by decide, by decide⟩

/-- C2, counterexample.  In the run `-a`, `-b`, `+c`, ` ctx`, the earlier
removal `a` never appears in the output — neither as the unpaired tuple the
claim predicts nor in any other tuple: the whole output is the single pair
`(b, c, 2, 1)` and no tuple carries old content `a`. -/
theorem C2_minus_run_pairing_counterexample :
    extract_changed_lines ceDiffRunCtx =
      [(some (lit "b"), some (lit "c"), some 2, some 1)] ∧
    (some (lit "a"), none, some 1, none) ∉ extract_changed_lines ceDiffRunCtx ∧
    lit "a" ∉ oldContents (extract_changed_lines ceDiffRunCtx) := by
  refine ⟨by decide, by decide, by decide⟩

/-- C4, counterexample.  After an unparseable hunk header the extractor does
not report the subsequent `-` line at all: the output for `-a`, `+b` is the
single unpaired addition `(null, b, null, null)`, with no tuple carrying old
content `a` — contradicting the claim that every subsequent changed line of
both kinds is reported with null line numbers. -/
theorem C4_bad_header_recovery_counterexample :
    extract_changed_lines ceBadHeader = [(none, some (lit "b"), none, none)] ∧
    lit "a" ∉ oldContents (extract_changed_lines ceBadHeader) := by
  refine ⟨by decide, by decide⟩

/-- C3, counterexample.  With an unreadable original file, the comparator
returns the empty result list and no error is raised (the read failure is
caught and swallowed); with `maxBytes = 0` — violating the claimed
precondition — it silently produces an ordinary truncated `modified-text`
result.  Both halves contradict the claim that these conditions raise and
that neither yields an empty result list. -/
theorem C3_error_propagation_counterexample :
    compare_plain_text_files (fun _ _ _ _ _ => []) (lit "a.txt") (lit "b.txt")
      none (some [65]) 1 true 1000000 = [] ∧
    (compare_plain_text_files (fun _ _ _ _ _ => []) (lit "a.txt") (lit "b.txt")
      (some [65]) (some [66]) 1 true 0).map (fun d => (d.kind, d.diff_truncated)) =
      [(lit "modified-text", true)] := by
  refine ⟨by decide, by decide⟩

/-- The unified diff produced for the pure-value-change scenario: original
lines `A`, `Param("Health", 100);`, `B` against `A`, `Param("Health", 150);`,
`B` with context 1.  `difflib.unified_diff` emits the two file-header lines
and the hunk header `@@ -1,3 +1,3 @@` with their own trailing newlines, so the
`"\n".join` at text_comparison.py line 98 leaves an empty line after each of
them. -/
def scenarioDiff : Str :=
  lit "--- original/f\n\n+++ modded/f\n\n@@ -1,3 +1,3 @@\n\n A\n-Param(\"Health\", 100);\n+Param(\"Health\", 150);\n B"

/-- C7.  On the pure-value-change scenario the extraction pipeline yields
exactly one changed-line pair, pairing the two `Param` lines with equal old
and new line numbers (both 2), and exactly one parameter change
`("Health", "100", "150")`. -/
theorem C7_scenario_pure_value_change :
    extract_changed_lines scenarioDiff =
      [(some (lit "Param(\"Health\", 100);"), some (lit "Param(\"Health\", 150);"),
        some 2, some 2)] ∧
    extract_param_changes_from_diff (extract_changed_lines scenarioDiff) false =
      [(lit "Health", lit "100", lit "150")] := by
  refine ⟨by decide, by decide⟩

/-! ### Dictionary lemmas for the fallback parameter map -/

/-- After a `dict` assignment the assigned key maps to the new value. -/
lemma dictSet_get_self (m : List (Str × Str)) (n v : Str) :
    dictGet n (dictSet m n v) = some v := by
  induction m with
  | nil => simp [dictSet, dictGet]
  | cons kv rest ih =>
    obtain ⟨k, w⟩ := kv
    by_cases hk : k = n
    · simp [dictSet, dictGet, hk]
    · simp [dictSet, dictGet, hk, ih]

/-- Last occurrence wins: when the final line of the input parses to
`(n, v)`, the parameter map sends `n` to `v` regardless of earlier lines. -/
lemma parse_params_append_one (ls : List Str) (l : Str) (n v : Str)
    (hl : parseParamsLine l = some (n, v)) :
    dictGet n (parse_params (ls ++ [l])) = some v := by
  unfold parse_params
  rw [List.foldl_append]
  simp [hl, dictSet_get_self]

/-- A key of the updated map is a key of the old map or the assigned key. -/
lemma mem_keys_dictSet (m : List (Str × Str)) (n v x : Str)
    (h : x ∈ (dictSet m n v).map Prod.fst) : x ∈ m.map Prod.fst ∨ x = n := by
  induction m with
  | nil =>
    simp only [dictSet, List.map_cons, List.map_nil, List.mem_singleton] at h
    exact Or.inr h
  | cons kv rest ih =>
    obtain ⟨k, w⟩ := kv
    simp only [dictSet] at h
    by_cases hk : k = n
    · rw [if_pos hk] at h
      simp only [List.map_cons, List.mem_cons] at h
      rcases h with h | h
      · exact Or.inr (by rw [h, hk])
      · exact Or.inl (by simp only [List.map_cons, List.mem_cons]; exact Or.inr h)
    · rw [if_neg hk] at h
      simp only [List.map_cons, List.mem_cons] at h
      rcases h with h | h
      · exact Or.inl (by simp only [List.map_cons, List.mem_cons]; exact Or.inl h)
      · rcases ih h with h2 | h2
        · exact Or.inl (by simp only [List.map_cons, List.mem_cons]; exact Or.inr h2)
        · exact Or.inr h2

/-- `dict` assignment preserves distinctness of keys. -/
lemma dictSet_keys_nodup (m : List (Str × Str)) (n v : Str)
    (h : (m.map Prod.fst).Nodup) : ((dictSet m n v).map Prod.fst).Nodup := by
  induction m with
  | nil => simp [dictSet]
  | cons kv rest ih =>
    obtain ⟨k, w⟩ := kv
    simp only [List.map_cons, List.nodup_cons] at h
    by_cases hk : k = n
    · simp only [dictSet, if_pos hk, List.map_cons, List.nodup_cons]
      exact ⟨h.1, h.2⟩
    · simp only [dictSet, if_neg hk, List.map_cons, List.nodup_cons]
      refine ⟨?_, ih h.2⟩
      intro hc
      rcases mem_keys_dictSet rest n v k hc with h2 | h2
      · exact h.1 h2
      · exact hk h2

/-- The parameter map has distinct keys, as any `dict` does. -/
lemma parse_params_keys_nodup (ls : List Str) :
    ((parse_params ls).map Prod.fst).Nodup := by
  suffices hgen : ∀ acc : List (Str × Str), (acc.map Prod.fst).Nodup →
      ((ls.foldl (fun acc l =>
        match parseParamsLine l with
        | some (n, v) => dictSet acc n v
        | none => acc) acc).map Prod.fst).Nodup by
    exact hgen [] (by simp)
  induction ls with
  | nil => intro acc hacc; simpa using hacc
  | cons l ls ih =>
    intro acc hacc
    simp only [List.foldl_cons]
    apply ih
    rcases hp : parseParamsLine l with _ | ⟨n, v⟩
    · simpa [hp] using hacc
    · simpa [hp] using dictSet_keys_nodup acc n v hacc

/-- On a distinct-key map, membership of a pair determines the lookup. -/
lemma dictGet_of_mem (m : List (Str × Str)) (n v : Str)
    (hnd : (m.map Prod.fst).Nodup) (hm : (n, v) ∈ m) : dictGet n m = some v := by
  induction m with
  | nil => simp at hm
  | cons kv rest ih =>
    obtain ⟨k, w⟩ := kv
    simp only [List.map_cons, List.nodup_cons] at hnd
    rcases List.mem_cons.mp hm with hm1 | hm1
    · have h1 : n = k := congrArg Prod.fst hm1
      have h2 : v = w := congrArg Prod.snd hm1
      subst h1; subst h2
      simp [dictGet]
    · have hk : ¬ k = n := by
        intro hc
        subst hc
        exact hnd.1 (by simpa using List.mem_map_of_mem Prod.fst hm1)
      simp only [dictGet, if_neg hk]
      exact ih hnd.2 hm1

/-- Every triple emitted by the fallback comparison names a parameter
present in both maps, with its two (distinct) values. -/
lemma fallback_mem_spec (L1 L2 : List Str) (n a b : Str)
    (hm : (n, a, b) ∈ fallbackParamChanges L1 L2) :
    dictGet n (parse_params L1) = some a ∧ dictGet n (parse_params L2) = some b ∧ a ≠ b := by
  unfold fallbackParamChanges at hm
  rw [List.mem_filterMap] at hm
  obtain ⟨p, hp, hf⟩ := hm
  obtain ⟨pn, pv⟩ := p
  rcases hg : dictGet (pn, pv).1 (parse_params L2) with _ | mv <;> simp only [hg] at hf
  · simp at hf
  · by_cases hne : mv = pv
    · rw [if_neg (by simp [hne])] at hf
      simp at hf
    · rw [if_pos hne] at hf
      simp only [Option.some.injEq, Prod.mk.injEq] at hf
      obtain ⟨h1, h2, h3⟩ := hf
      subst h1; subst h2; subst h3
      refine ⟨?_, hg, ?_⟩
      · exact dictGet_of_mem _ _ _ (parse_params_keys_nodup L1) hp
      · intro hc
        exact hne hc.symm

/-! ### Result-shape lemmas -/

/-- `param_changes or None` is never `Some []`. -/
lemma listOrNone_ne_some_nil (l : List (Str × Str × Str)) : listOrNone l ≠ some [] := by
  unfold listOrNone
  split
  · simp
  · rename_i hne
    intro hc
    injection hc with hc2
    exact hne hc2

/-- `param_changes or None` is null or a non-empty list. -/
lemma listOrNone_none_or_cons (l : List (Str × Str × Str)) :
    listOrNone l = none ∨ ∃ t ts, listOrNone l = some (t :: ts) := by
  unfold listOrNone
  split
  · exact Or.inl rfl
  · rename_i hne
    cases l with
    | nil => exact absurd rfl hne
    | cons t ts => exact Or.inr ⟨t, ts, rfl⟩

/-- C5.  Whenever the comparator reports a truncated diff, the diff and
changed-lines fields are null and the parameter changes are exactly the
whole-file fallback comparison of the two (possibly JSON-normalized) line
lists; moreover the fallback map obeys last-occurrence-wins, and every
fallback triple is a modification of a name present in both maps with
distinct values — never an addition or removal. -/
theorem C5_truncated_invariants
    (mkDiff : List Str → List Str → Str → Str → Nat → List Str)
    (origName modName : Str) (ob mb : List Nat)
    (context : Nat) (includeDiff : Bool) (maxTextBytes : Int) (d : FileDiff)
    (h : d ∈ compare_plain_text_files mkDiff origName modName (some ob) (some mb)
      context includeDiff maxTextBytes)
    (ht : d.diff_truncated = true)
    (ls : List Str) (l : Str) (n2 v2 : Str) (hline : parseParamsLine l = some (n2, v2))
    (n3 a b : Str)
    (hm : (n3, a, b) ∈ fallbackParamChanges (comparatorContents origName ob mb).1
      (comparatorContents origName ob mb).2.1) :
    d.diff = none ∧ d.changed_lines = none ∧
    d.param_changes = listOrNone (fallbackParamChanges (comparatorContents origName ob mb).1
      (comparatorContents origName ob mb).2.1) ∧
    dictGet n2 (parse_params (ls ++ [l])) = some v2 ∧
    dictGet n3 (parse_params (comparatorContents origName ob mb).1) = some a ∧
    dictGet n3 (parse_params (comparatorContents origName ob mb).2.1) = some b ∧ a ≠ b := by
  have hside := fallback_mem_spec _ _ _ _ _ hm
  have hlast := parse_params_append_one ls l n2 v2 hline
  simp only [compare_plain_text_files] at h
  split at h
  · simp at h
  split at h
  · split at h
    · split at h
      · simp at h
        subst h
        simp at ht
      · simp at h
        subst h
        exact ⟨rfl, rfl, rfl, hlast, hside.1, hside.2.1, hside.2.2⟩
    · simp at h
      subst h
      simp at ht
  · simp at h
    subst h
    simp at ht

/-- C8.  Every result the comparator emits has kind `removed`,
`modified-binary` or `modified-text`; the `added` kind listed in the data
model is never produced. -/
theorem C8_kind_never_added
    (mkDiff : List Str → List Str → Str → Str → Nat → List Str)
    (origName modName : Str) (origBytes modBytes : Option (List Nat))
    (context : Nat) (includeDiff : Bool) (maxTextBytes : Int) (d : FileDiff)
    (h : d ∈ compare_plain_text_files mkDiff origName modName origBytes modBytes
      context includeDiff maxTextBytes) :
    (d.kind = lit "removed" ∨ d.kind = lit "modified-binary" ∨ d.kind = lit "modified-text") ∧
    d.kind ≠ lit "added" := by
  rcases origBytes with _ | ob <;> rcases modBytes with _ | mb <;>
    simp only [compare_plain_text_files] at h
  · simp at h
  · simp at h
  · split at h
    · simp at h
      subst h
      exact ⟨Or.inl rfl, (by decide : lit "removed" ≠ lit "added")⟩
    · simp at h
  · split at h
    · simp at h
    split at h
    · split at h
      · split at h
        · simp at h
          subst h
          exact ⟨Or.inr (Or.inr rfl), (by decide : lit "modified-text" ≠ lit "added")⟩
        · simp at h
          subst h
          exact ⟨Or.inr (Or.inr rfl), (by decide : lit "modified-text" ≠ lit "added")⟩
      · simp at h
        subst h
        exact ⟨Or.inr (Or.inr rfl), (by decide : lit "modified-text" ≠ lit "added")⟩
    · simp at h
      subst h
      exact ⟨Or.inr (Or.inl rfl), (by decide : lit "modified-binary" ≠ lit "added")⟩

/-- C10.  A `modified-text` result never carries an empty parameter-change
list: the field is null exactly when nothing was found, and a non-empty list
otherwise. -/
theorem C10_param_changes_never_empty
    (mkDiff : List Str → List Str → Str → Str → Nat → List Str)
    (origName modName : Str) (origBytes modBytes : Option (List Nat))
    (context : Nat) (includeDiff : Bool) (maxTextBytes : Int) (d : FileDiff)
    (h : d ∈ compare_plain_text_files mkDiff origName modName origBytes modBytes
      context includeDiff maxTextBytes)
    (hk : d.kind = lit "modified-text") :
    d.param_changes ≠ some [] ∧
    (d.param_changes = none ∨ ∃ t ts, d.param_changes = some (t :: ts)) := by
  rcases origBytes with _ | ob <;> rcases modBytes with _ | mb <;>
    simp only [compare_plain_text_files] at h
  · simp at h
  · simp at h
  · split at h
    · simp at h
      subst h
      simp at hk
      exact absurd hk (by decide)
    · simp at h
  · split at h
    · simp at h
    split at h
    · split at h
      · split at h
        · simp at h
          subst h
          exact ⟨listOrNone_ne_some_nil _, listOrNone_none_or_cons _⟩
        · simp at h
          subst h
          exact ⟨listOrNone_ne_some_nil _, listOrNone_none_or_cons _⟩
      · simp at h
        subst h
        exact ⟨by simp, Or.inl rfl⟩
    · simp at h
      subst h
      simp at hk
      exact absurd hk (by decide)

/-- C3, amended.  The comparator does not raise for either condition: an
unreadable original file is swallowed and yields the empty result list, and
`maxBytes <= 0` is not validated — with differing text files it simply
forces the truncated fallback path, producing a normal `modified-text`
result with a null diff. -/
theorem C3_error_propagation_amended
    (mkDiff : List Str → List Str → Str → Str → Nat → List Str)
    (origName modName : Str) (modBytes : Option (List Nat))
    (ob mb : List Nat) (context : Nat) (includeDiff : Bool) (maxTextBytes : Int)
    (hmax : maxTextBytes ≤ 0) (hob : is_text ob = true) (hmb : is_text mb = true)
    (hne : ob ≠ mb) :
    compare_plain_text_files mkDiff origName modName none modBytes context
      includeDiff maxTextBytes = [] ∧
    (compare_plain_text_files mkDiff origName modName (some ob) (some mb) context
      true maxTextBytes).map (fun d => (d.kind, d.diff_truncated, d.diff)) =
      [(lit "modified-text", true, none)] := by
  constructor
  · simp [compare_plain_text_files]
  · have hsz : ¬ ((ob.length : Int) ≤ maxTextBytes ∧ (mb.length : Int) ≤ maxTextBytes) := by
      rintro ⟨h1, h2⟩
      have hob0 : ob.length = 0 := by omega
      have hmb0 : mb.length = 0 := by omega
      exact hne (by rw [List.length_eq_zero.mp hob0, List.length_eq_zero.mp hmb0])
    simp only [compare_plain_text_files]
    rw [if_neg hne, if_pos (by simp [hob, hmb]), if_pos trivial, if_neg hsz]
    simp

/-- Witness for C3 amended, at one byte `A` against one byte `B` with
`maxBytes = -5`. -/
theorem C3_error_propagation_witness :
    compare_plain_text_files (fun _ _ _ _ _ => []) (lit "a.txt") (lit "b.txt")
      none (some [66]) 1 true (-5) = [] ∧
    (compare_plain_text_files (fun _ _ _ _ _ => []) (lit "a.txt") (lit "b.txt")
      (some [65]) (some [66]) 1 true (-5)).map
      (fun d => (d.kind, d.diff_truncated, d.diff)) =
      [(lit "modified-text", true, none)] :=
  C3_error_propagation_amended (fun _ _ _ _ _ => []) (lit "a.txt") (lit "b.txt")
    (some [66]) [65] [66] 1 true (-5) (by decide) (by decide) (by decide) (by decide)

/-- The bytes of `Speed(10);`. -/
def speedTenBytes : List Nat := (lit "Speed(10);").map Char.toNat

/-- The bytes of `Speed(20);`. -/
def speedTwentyBytes : List Nat := (lit "Speed(20);").map Char.toNat

/-- The truncated result the comparator produces on the oversized
`Speed(10);`/`Speed(20);` pair. -/
def speedTruncFD : FileDiff :=
  { path := lit "big.txt", kind := lit "modified-text", diff := none,
    param_changes := some [(lit "Speed", lit "10", lit "20")],
    diff_truncated := true, changed_lines := none }

/-- Witness for C5, on the oversized-pair scenario `Speed(10);` against
`Speed(20);` with `maxBytes = -1`. -/
theorem C5_truncated_invariants_witness :
    speedTruncFD.diff = none ∧
    speedTruncFD.changed_lines = none ∧
    speedTruncFD.param_changes =
      listOrNone (fallbackParamChanges
        (comparatorContents (lit "big.txt") speedTenBytes speedTwentyBytes).1
        (comparatorContents (lit "big.txt") speedTenBytes speedTwentyBytes).2.1) ∧
    dictGet (lit "Speed") (parse_params ([] ++ [lit "Speed(10);"])) = some (lit "10") ∧
    dictGet (lit "Speed") (parse_params
      (comparatorContents (lit "big.txt") speedTenBytes speedTwentyBytes).1) =
      some (lit "10") ∧
    dictGet (lit "Speed") (parse_params
      (comparatorContents (lit "big.txt") speedTenBytes speedTwentyBytes).2.1) =
      some (lit "20") ∧
    lit "10" ≠ lit "20" :=
  C5_truncated_invariants (fun _ _ _ _ _ => []) (lit "big.txt") (lit "big.txt")
    speedTenBytes speedTwentyBytes 1 true (-1) speedTruncFD
    (by decide) (by decide)
    [] (lit "Speed(10);") (lit "Speed") (lit "10") (by decide)
    (lit "Speed") (lit "10") (lit "20") (by decide)

/-- The removed-file result used in the C8 witness. -/
def removedFD : FileDiff := { path := lit "a.txt", kind := lit "removed" }

/-- Witness for C8, on the removed-file scenario. -/
theorem C8_kind_never_added_witness :
    (removedFD.kind = lit "removed" ∨ removedFD.kind = lit "modified-binary" ∨
      removedFD.kind = lit "modified-text") ∧
    removedFD.kind ≠ lit "added" :=
  C8_kind_never_added (fun _ _ _ _ _ => []) (lit "a.txt") (lit "b.txt")
    (some [65]) none 1 true 100 removedFD (by decide)

/-- The diff-less `modified-text` result used in the C10 witness. -/
def noDiffTextFD : FileDiff :=
  { path := lit "a.txt", kind := lit "modified-text", diff := none,
    param_changes := none, diff_truncated := false, changed_lines := none }

/-- Witness for C10, on a `modified-text` result computed with
`includeDiff = false`. -/
theorem C10_param_changes_never_empty_witness :
    noDiffTextFD.param_changes ≠ some [] ∧
    (noDiffTextFD.param_changes = none ∨
      ∃ t ts, noDiffTextFD.param_changes = some (t :: ts)) :=
  C10_param_changes_never_empty (fun _ _ _ _ _ => []) (lit "a.txt") (lit "b.txt")
    (some [65]) (some [66]) 1 false 100 noDiffTextFD (by decide) (by decide)

/-- C9.  The whole-file fallback parser applies no comma heuristic: on a
line where the `Param` pattern fails and the function-call pattern captures
an argument text containing a comma, `_parse_params` records the whole
normalized argument text (whitespace-stripped, outer quotes removed), while
the diff-mode line extractor records only the last comma-separated argument
of the same text — so the two modes disagree on the concrete line
`foo(1, 2);`, where they record `1, 2` and `2` respectively. -/
theorem C9_fallback_no_comma_heuristic (line n args : Str)
    (h1 : paramSearch line = none) (h2 : propSearch line = some (n, args))
    (h3 : (pyStrip args).contains ',' = true) :
    parse_params [line] = [(n, normValue args)] ∧
    extract_param_from_line line = some (n, stripQuotes (lastCommaArg (pyStrip args))) ∧
    parse_params [lit "foo(1, 2);"] = [(lit "foo", lit "1, 2")] ∧
    extract_param_from_line (lit "foo(1, 2);") = some (lit "foo", lit "2") ∧
    (lit "1, 2") ≠ (lit "2") := by
  have hline_ne : ¬ line = [] := by
    intro hc
    subst hc
    rw [show propSearch [] = none from rfl] at h2
    exact Option.noConfusion h2
  refine ⟨?_, ?_, by decide, by decide, by decide⟩
  · unfold parse_params
    simp only [List.foldl_cons, List.foldl_nil, parseParamsLine, h1, h2]
    rfl
  · unfold extract_param_from_line
    rw [if_neg hline_ne]
    simp only [h1, h2, h3, if_true]

/-- Witness for C9, on the multi-argument line `bone("PELVIS", "Pelvis");`
from the source's own comment: the fallback records the full argument text
(quote-stripped at its ends), the extractor records `Pelvis`. -/
theorem C9_fallback_no_comma_heuristic_witness :
    parse_params [lit "bone(\"PELVIS\", \"Pelvis\");"] =
      [(lit "bone", normValue (lit "\"PELVIS\", \"Pelvis\""))] ∧
    extract_param_from_line (lit "bone(\"PELVIS\", \"Pelvis\");") =
      some (lit "bone", stripQuotes (lastCommaArg (pyStrip (lit "\"PELVIS\", \"Pelvis\"")))) ∧
    parse_params [lit "foo(1, 2);"] = [(lit "foo", lit "1, 2")] ∧
    extract_param_from_line (lit "foo(1, 2);") = some (lit "foo", lit "2") ∧
    (lit "1, 2") ≠ (lit "2") :=
  C9_fallback_no_comma_heuristic (lit "bone(\"PELVIS\", \"Pelvis\");")
    (lit "bone") (lit "\"PELVIS\", \"Pelvis\"") (by decide) (by decide) (by decide)

/-- C2, amended.  In a run of consecutive `-` lines followed by `+` lines,
only the most recent pending removal is held: a further `-` line overwrites
the pending removal, discarding the earlier one without emitting anything;
the first `+` line pairs with that last pending removal (clearing the
pending state), and once cleared, further `+` lines are unpaired additions.
Earlier `-` lines of the run are therefore dropped from the output entirely,
not flushed later as unpaired removals. -/
theorem C2_minus_run_pairing_amended (st st2 : EclState)
    (c content1 content2 : Str) (k : Nat)
    (hwm : st.lastWasMinus = true) (hc : st.lastMinusContent = some c)
    (hn : st.lastMinusLineNum.isSome = true)
    (hold : st.oldLineNum = some k)
    (hp2 : pendingCond st2 = false)
    (lm lp : Str)
    (hlm : classifyEclLine lm = .minusLine content1)
    (hlp : classifyEclLine lp = .plusLine content2) :
    ((eclStep st lm).changes = st.changes ∧
     (eclStep st lm).lastMinusContent = some content1 ∧
     (eclStep st lm).lastMinusLineNum = some k ∧
     (eclStep st lm).lastWasMinus = true) ∧
    ((eclStep st lp).changes =
       st.changes ++ [(some c, some content2, st.lastMinusLineNum, st.newLineNum)] ∧
     pendingCond (eclStep st lp) = false) ∧
    (eclStep st2 lp).changes = st2.changes ++ [(none, some content2, none, st2.newLineNum)] := by
  have hpend : pendingCond st = true := by
    simp [pendingCond, hwm, hc, hn]
  refine ⟨?_, ?_, ?_⟩
  · unfold eclStep
    rw [hlm, hold]
    exact ⟨rfl, rfl, rfl, rfl⟩
  · rcases hnew : st.newLineNum with _ | nn <;>
      simp [eclStep, hlp, hc, hnew, pendingCond, hwm, hn]
  · rcases hnew : st2.newLineNum with _ | nn <;>
      simp [eclStep, hlp, hp2, hnew]

/-- The loop state in the middle of a `-` run: pending removal `a` at line 1,
counters at old 2 / new 1. -/
def c2WitnessState : EclState :=
  { changes := [], oldLineNum := some 2, newLineNum := some 1,
    lastWasMinus := true, lastMinusContent := some (lit "a"),
    lastMinusLineNum := some 1 }

/-- Witness for C2 amended, stepping `-b` and `+c` from a state holding the
pending removal `a`. -/
theorem C2_minus_run_pairing_witness :
    ((eclStep c2WitnessState (lit "-b")).changes = c2WitnessState.changes ∧
     (eclStep c2WitnessState (lit "-b")).lastMinusContent = some (lit "b") ∧
     (eclStep c2WitnessState (lit "-b")).lastMinusLineNum = some 2 ∧
     (eclStep c2WitnessState (lit "-b")).lastWasMinus = true) ∧
    ((eclStep c2WitnessState (lit "+c")).changes =
       c2WitnessState.changes ++
         [(some (lit "a"), some (lit "c"), c2WitnessState.lastMinusLineNum,
           c2WitnessState.newLineNum)] ∧
     pendingCond (eclStep c2WitnessState (lit "+c")) = false) ∧
    (eclStep initEcl (lit "+c")).changes =
      initEcl.changes ++ [(none, some (lit "c"), none, initEcl.newLineNum)] :=
  C2_minus_run_pairing_amended c2WitnessState initEcl
    (lit "a") (lit "b") (lit "c") 2
    (by decide) (by decide) (by decide) (by decide) (by decide)
    (lit "-b") (lit "+c") (by decide) (by decide)

/-- C4, amended.  A hunk header that fails to parse or carries an
out-of-range start number resets both counters to null and clears the
pending state, keeping the changes accumulated so far; from a null-counter
state (with no pending removal), a `+` line is still reported — as an
unpaired addition with null line numbers — while a `-` line is skipped
entirely (the state is unchanged, so the removal is omitted), and a context
line changes nothing. -/
theorem C4_bad_header_recovery_amended (st st0 : EclState)
    (lbad lplus lminus lctx : Str) (a c : Nat) (pc mc : Str)
    (hbad : strStarts lbad ['@', '@'] = true)
    (hparse : hunkHeaderSearch lbad = none ∨
      (hunkHeaderSearch lbad = some (a, c) ∧
        ¬ (0 < a ∧ 0 < c ∧ a ≤ 100000000 ∧ c ≤ 100000000)))
    (h0old : st0.oldLineNum = none) (h0new : st0.newLineNum = none)
    (h0p : pendingCond st0 = false)
    (hlp : classifyEclLine lplus = .plusLine pc)
    (hlm : classifyEclLine lminus = .minusLine mc)
    (hlc : classifyEclLine lctx = .contextLine) :
    eclStep st lbad =
      { changes := st.changes, oldLineNum := none, newLineNum := none,
        lastWasMinus := false, lastMinusContent := none, lastMinusLineNum := none } ∧
    eclStep st0 lplus = { st0 with changes := (st0.changes ++ [(none, some pc, none, none)]) } ∧
    eclStep st0 lminus = st0 ∧
    eclStep st0 lctx = st0 := by
  have hclass : classifyEclLine lbad = .hunkBad := by
    unfold classifyEclLine
    rw [if_pos hbad]
    rcases hparse with hp | ⟨hp, hrange⟩
    · simp only [hp]
    · have hfalse : ¬ ((a > 0 && c > 0 && a ≤ 100000000 && c ≤ 100000000) = true) := by
        intro hb
        simp only [Bool.and_eq_true, decide_eq_true_eq] at hb
        exact hrange ⟨hb.1.1.1, hb.1.1.2, hb.1.2, hb.2⟩
      simp only [hp]
      rw [if_neg hfalse]
  refine ⟨?_, ?_, ?_, ?_⟩
  · simp [eclStep, hclass]
  · simp [eclStep, hlp, h0p, h0new]
  · simp [eclStep, hlm, h0old]
  · simp [eclStep, hlc, h0p, h0old, h0new]

/-- Witness for C4 amended, on the unparseable header `@@ bogus @@` and the
lines `+b`, `-a` and ` x` from the initial (null-counter) state. -/
theorem C4_bad_header_recovery_witness :
    eclStep initEcl (lit "@@ bogus @@") =
      { changes := initEcl.changes, oldLineNum := none, newLineNum := none,
        lastWasMinus := false, lastMinusContent := none, lastMinusLineNum := none } ∧
    eclStep initEcl (lit "+b") =
      { initEcl with changes := (initEcl.changes ++ [(none, some (lit "b"), none, none)]) } ∧
    eclStep initEcl (lit "-a") = initEcl ∧
    eclStep initEcl (lit " x") = initEcl :=
  C4_bad_header_recovery_amended initEcl initEcl
    (lit "@@ bogus @@") (lit "+b") (lit "-a") (lit " x") 0 0 (lit "b") (lit "a")
    (by decide) (Or.inl (by decide)) (by decide) (by decide) (by decide)
    (by decide) (by decide) (by decide)

/-- The pending removal as a (zero- or one-element) list of its content. -/
def pendingList (st : EclState) : List Str :=
  if pendingCond st then st.lastMinusContent.toList else []

/-- A string that does not start with `c` does not start with any pattern
beginning with `c`. -/
lemma strStarts_cons_false (c : Char) (pat : Str) (l : Str)
    (h : strStarts l [c] = false) : strStarts l (c :: pat) = false := by
  rcases l with _ | ⟨d, l3⟩
  · rfl
  · simp [strStarts] at h ⊢
    intro hc
    exact absurd hc h

/-- A line satisfying the raw `+`-body test is classified as a `+` line. -/
lemma classify_of_plus (l : Str)
    (h : (strStarts l ['+'] && !strStarts l ['+', '+']) = true) :
    classifyEclLine l = .plusLine (l.drop 1) := by
  rcases l with _ | ⟨c1, l2⟩
  · simp [strStarts] at h
  · simp only [strStarts, Bool.and_eq_true, Bool.not_eq_true'] at h
    obtain ⟨h1, h2⟩ := h
    simp only [Bool.and_eq_true, decide_eq_true_eq] at h1
    have hc1 : c1 = '+' := h1.1
    subst hc1
    simp at h2
    unfold classifyEclLine
    rw [if_neg (by simp [strStarts]), if_neg (by simp [strStarts, strStarts_cons_false _ _ _ h2]),
      if_neg (by simp), if_neg (by simp [strStarts]),
      if_pos (by simp [strStarts, h2])]

/-- A line satisfying the raw `-`-body test is classified as a `-` line. -/
lemma classify_of_minus (l : Str)
    (h : (strStarts l ['-'] && !strStarts l ['-', '-']) = true) :
    classifyEclLine l = .minusLine (l.drop 1) := by
  rcases l with _ | ⟨c1, l2⟩
  · simp [strStarts] at h
  · simp only [strStarts, Bool.and_eq_true, Bool.not_eq_true'] at h
    obtain ⟨h1, h2⟩ := h
    simp only [Bool.and_eq_true, decide_eq_true_eq] at h1
    have hc1 : c1 = '-' := h1.1
    subst hc1
    simp at h2
    unfold classifyEclLine
    rw [if_neg (by simp [strStarts]), if_neg (by simp [strStarts, strStarts_cons_false _ _ _ h2]),
      if_neg (by simp), if_pos (by simp [strStarts, h2])]

/-- Conversely, only lines satisfying the raw `+`-body test are classified
as `+` lines, and the content is the line without its first character. -/
lemma classify_plus_inv (l : Str) (c : Str) (h : classifyEclLine l = .plusLine c) :
    (strStarts l ['+'] && !strStarts l ['+', '+']) = true ∧ c = l.drop 1 := by
  unfold classifyEclLine at h
  split at h
  · split at h
    · split at h <;> simp at h
    · simp at h
  · split at h
    · simp at h
    · split at h
      · simp at h
      · split at h
        · simp at h
        · split at h
          · rename_i hplus
            simp at h
            exact ⟨hplus, by rw [List.drop_one]; exact h.symm⟩
          · simp at h

/-- Conversely, only lines satisfying the raw `-`-body test are classified
as `-` lines, and the content is the line without its first character. -/
lemma classify_minus_inv (l : Str) (c : Str) (h : classifyEclLine l = .minusLine c) :
    (strStarts l ['-'] && !strStarts l ['-', '-']) = true ∧ c = l.drop 1 := by
  unfold classifyEclLine at h
  split at h
  · split at h
    · split at h <;> simp at h
    · simp at h
  · split at h
    · simp at h
    · split at h
      · simp at h
      · split at h
        · rename_i hminus
          simp at h
          exact ⟨hminus, by rw [List.drop_one]; exact h.symm⟩
        · split at h
          · simp at h
          · simp at h

/-- Appending one tuple appends its new-side content (if any). -/
lemma newContents_append_tuple (cs : List ChangedLine) (t : ChangedLine) :
    newContents (cs ++ [t]) = newContents cs ++ t.2.1.toList := by
  simp only [newContents, List.filterMap_append]
  rcases t with ⟨o, n, a, b⟩
  cases n <;> simp

/-- Appending one tuple appends its old-side content (if any). -/
lemma oldContents_append_tuple (cs : List ChangedLine) (t : ChangedLine) :
    oldContents (cs ++ [t]) = oldContents cs ++ t.1.toList := by
  simp only [oldContents, List.filterMap_append]
  rcases t with ⟨o, n, a, b⟩
  cases o <;> simp

/-- A line not classified as a `+` line fails the raw `+`-body test. -/
lemma plusPred_false_of_classify (l : Str) (h : ∀ c, ¬ classifyEclLine l = .plusLine c) :
    (strStarts l ['+'] && !strStarts l ['+', '+']) = false := by
  cases hb : (strStarts l ['+'] && !strStarts l ['+', '+'])
  · rfl
  · exact absurd (classify_of_plus l hb) (h _)

/-- A line not classified as a `-` line fails the raw `-`-body test. -/
lemma minusPred_false_of_classify (l : Str) (h : ∀ c, ¬ classifyEclLine l = .minusLine c) :
    (strStarts l ['-'] && !strStarts l ['-', '-']) = false := by
  cases hb : (strStarts l ['-'] && !strStarts l ['-', '-'])
  · rfl
  · exact absurd (classify_of_minus l hb) (h _)

/-- One loop step appends to the new-side contents exactly the content of a
`+`-body line, and nothing otherwise. -/
lemma eclStep_newContents (st : EclState) (l : Str) :
    newContents (eclStep st l).changes =
      newContents st.changes ++
        (if (strStarts l ['+'] && !strStarts l ['+', '+']) = true then [l.drop 1] else []) := by
  cases hcl : classifyEclLine l with
  | hunkValid a c2 =>
    rw [if_neg (by simp [plusPred_false_of_classify l (by simp [hcl])])]
    simp [eclStep, hcl]
  | hunkBad =>
    rw [if_neg (by simp [plusPred_false_of_classify l (by simp [hcl])])]
    simp [eclStep, hcl]
  | skipLine =>
    rw [if_neg (by simp [plusPred_false_of_classify l (by simp [hcl])])]
    simp [eclStep, hcl]
  | minusLine mc =>
    rw [if_neg (by simp [plusPred_false_of_classify l (by simp [hcl])])]
    rcases hold : st.oldLineNum with _ | k <;> simp [eclStep, hcl, hold]
  | plusLine pc =>
    obtain ⟨hpred, hc⟩ := classify_plus_inv l pc hcl
    rw [if_pos hpred]
    subst hc
    by_cases hpc : pendingCond st = true
    · rcases hnew : st.newLineNum with _ | nn <;>
        simp [eclStep, hcl, hpc, hnew, newContents_append_tuple]
    · rcases hnew : st.newLineNum with _ | nn <;>
        simp [eclStep, hcl, hpc, hnew, newContents_append_tuple]
  | contextLine =>
    rw [if_neg (by simp [plusPred_false_of_classify l (by simp [hcl])])]
    by_cases hpc : pendingCond st = true <;>
      rcases hold : st.oldLineNum with _ | k <;>
      rcases hnew : st.newLineNum with _ | nn <;>
        simp [eclStep, hcl, hpc, hold, hnew, newContents_append_tuple]

/-- Over any line list, the new-side contents of the accumulated changes
grow by exactly the `+`-body contents, in order. -/
lemma foldl_newContents (lines : List Str) (st : EclState) :
    newContents ((lines.foldl eclStep st).changes) =
      newContents st.changes ++
        lines.filterMap (fun l =>
          if (strStarts l ['+'] && !strStarts l ['+', '+']) = true then some (l.drop 1) else none) := by
  induction lines generalizing st with
  | nil => simp
  | cons l ls ih =>
    simp only [List.foldl_cons, List.filterMap_cons]
    rw [ih, eclStep_newContents]
    by_cases hp : (strStarts l ['+'] && !strStarts l ['+', '+']) = true
    · simp [hp, List.append_assoc]
    · simp [hp]

/-- The extractor's new-side contents are exactly the `+`-body contents of
the diff text, as a list (hence as a multiset). -/
lemma extract_newContents (d : Str) :
    newContents (extract_changed_lines d) = plusBodyContents d := by
  have h := foldl_newContents (pySplitlines d) initEcl
  have h0 : newContents initEcl.changes = [] := rfl
  rw [h0, List.nil_append] at h
  simp only [extract_changed_lines]
  split
  · rw [newContents_append_tuple]
    simp only [Option.toList_none, List.append_nil]
    exact h
  · exact h

/-- One loop step keeps the old-side contents plus the pending removal a
sublist of what they were plus the content of a processed `-`-body line:
removals can be dropped (header reset, pending overwrite) but never
duplicated. -/
lemma eclStep_oldPending (st : EclState) (l : Str) :
    (oldContents (eclStep st l).changes ++ pendingList (eclStep st l)).Sublist
      ((oldContents st.changes ++ pendingList st) ++
        (if (strStarts l ['-'] && !strStarts l ['-', '-']) = true then [l.drop 1] else [])) := by
  cases hcl : classifyEclLine l with
  | hunkValid a c2 =>
    rw [if_neg (by simp [minusPred_false_of_classify l (by simp [hcl])])]
    simp [eclStep, hcl, pendingList, pendingCond]
  | hunkBad =>
    rw [if_neg (by simp [minusPred_false_of_classify l (by simp [hcl])])]
    simp [eclStep, hcl, pendingList, pendingCond]
  | skipLine =>
    rw [if_neg (by simp [minusPred_false_of_classify l (by simp [hcl])])]
    simp [eclStep, hcl]
  | minusLine mc =>
    obtain ⟨hpred, hc⟩ := classify_minus_inv l mc hcl
    rw [if_pos hpred]
    subst hc
    rcases hold : st.oldLineNum with _ | k
    · simp only [eclStep, hcl, hold]
      exact List.sublist_append_left _ _
    · simp [eclStep, hcl, hold, pendingList, pendingCond]
  | plusLine pc =>
    rw [if_neg (by simp [minusPred_false_of_classify l (by simp [hcl])])]
    by_cases hpc : pendingCond st = true
    · obtain ⟨⟨hwm, hcs⟩, hks⟩ :
          (st.lastWasMinus = true ∧ st.lastMinusContent.isSome = true) ∧
            st.lastMinusLineNum.isSome = true := by
        simpa [pendingCond] using hpc
      obtain ⟨c, hc⟩ := Option.isSome_iff_exists.mp hcs
      obtain ⟨k, hk⟩ := Option.isSome_iff_exists.mp hks
      rcases hnew : st.newLineNum with _ | nn <;>
        simp [eclStep, hcl, hnew, pendingCond, hwm, hc, hk,
          oldContents_append_tuple, pendingList]
    · have hpc2 : ¬ ((st.lastWasMinus = true ∧ st.lastMinusContent.isSome = true) ∧
          st.lastMinusLineNum.isSome = true) := by
        intro hx
        exact hpc (by simp [pendingCond, hx.1.1, hx.1.2, hx.2])
      rcases hnew : st.newLineNum with _ | nn <;>
        simp [eclStep, hcl, hnew, pendingCond, hpc2, oldContents_append_tuple, pendingList]
  | contextLine =>
    rw [if_neg (by simp [minusPred_false_of_classify l (by simp [hcl])])]
    by_cases hpc : pendingCond st = true
    · obtain ⟨⟨hwm, hcs⟩, hks⟩ :
          (st.lastWasMinus = true ∧ st.lastMinusContent.isSome = true) ∧
            st.lastMinusLineNum.isSome = true := by
        simpa [pendingCond] using hpc
      obtain ⟨c, hc⟩ := Option.isSome_iff_exists.mp hcs
      obtain ⟨k, hk⟩ := Option.isSome_iff_exists.mp hks
      rcases hold : st.oldLineNum with _ | ko <;>
        rcases hnew : st.newLineNum with _ | nn <;>
          simp [eclStep, hcl, hold, hnew, pendingCond, hwm, hc, hk,
            oldContents_append_tuple, pendingList]
    · have hpc2 : ¬ ((st.lastWasMinus = true ∧ st.lastMinusContent.isSome = true) ∧
          st.lastMinusLineNum.isSome = true) := by
        intro hx
        exact hpc (by simp [pendingCond, hx.1.1, hx.1.2, hx.2])
      rcases hold : st.oldLineNum with _ | ko <;>
        rcases hnew : st.newLineNum with _ | nn <;>
          simp [eclStep, hcl, hold, hnew, pendingCond, hpc2, pendingList]

/-- The fold version of the old-side sublist invariant. -/
lemma foldl_oldPending (lines : List Str) (st : EclState) :
    (oldContents ((lines.foldl eclStep st).changes) ++
      pendingList (lines.foldl eclStep st)).Sublist
      ((oldContents st.changes ++ pendingList st) ++
        lines.filterMap (fun l =>
          if (strStarts l ['-'] && !strStarts l ['-', '-']) = true then some (l.drop 1) else none)) := by
  induction lines generalizing st with
  | nil => simp
  | cons l ls ih =>
    simp only [List.foldl_cons, List.filterMap_cons]
    refine (ih (eclStep st l)).trans ?_
    by_cases hp : (strStarts l ['-'] && !strStarts l ['-', '-']) = true
    · have h1 := eclStep_oldPending st l
      rw [if_pos hp] at h1
      rw [hp]
      simp only [if_true]
      have h2 := h1.append_right (ls.filterMap (fun l =>
        if (strStarts l ['-'] && !strStarts l ['-', '-']) = true then some (l.drop 1) else none))
      refine h2.trans ?_
      simp [List.append_assoc]
    · have h1 := eclStep_oldPending st l
      rw [if_neg hp, List.append_nil] at h1
      rw [if_neg hp]
      exact h1.append_right _

/-- The extractor's old-side contents form a sublist of the `-`-body
contents of the diff text. -/
lemma extract_oldContents_sublist (d : Str) :
    (oldContents (extract_changed_lines d)).Sublist (minusBodyContents d) := by
  have h := foldl_oldPending (pySplitlines d) initEcl
  have h0 : oldContents initEcl.changes ++ pendingList initEcl = [] := rfl
  rw [h0, List.nil_append] at h
  simp only [extract_changed_lines]
  split
  · rename_i hp
    rw [oldContents_append_tuple]
    have hpl : pendingList ((pySplitlines d).foldl eclStep initEcl) =
        ((pySplitlines d).foldl eclStep initEcl).lastMinusContent.toList := by
      simp [pendingList, hp]
    rw [hpl] at h
    exact h
  · rename_i hp
    have hpl : pendingList ((pySplitlines d).foldl eclStep initEcl) = [] := by
      simp [pendingList, hp]
    rw [hpl, List.append_nil] at h
    exact h

/-- A string that starts with an extended pattern starts with the pattern's
prefix. -/
lemma strStarts_of_append (p : Str) (q : Str) : ∀ l : Str,
    strStarts l (p ++ q) = true → strStarts l p = true := by
  induction p with
  | nil => intro l _; cases l <;> rfl
  | cons c pat ih =>
    intro l h
    cases l with
    | nil => exact absurd h (by simp [strStarts])
    | cons d l2 =>
      simp only [List.cons_append, strStarts, Bool.and_eq_true] at h ⊢
      exact ⟨h.1, ih l2 h.2⟩

/-- A line-wise implication between `filterMap` functions gives a sublist. -/
lemma filterMap_sublist_of_imp (f g : Str → Option Str)
    (h : ∀ a b, f a = some b → g a = some b) :
    ∀ l : List Str, (l.filterMap f).Sublist (l.filterMap g) := by
  intro l
  induction l with
  | nil => simp
  | cons a as ih =>
    rcases hf : f a with _ | b
    · rcases hg : g a with _ | c
      · simpa [List.filterMap_cons, hf, hg] using ih
      · simp only [List.filterMap_cons, hf, hg]
        exact ih.cons c
    · have hg := h a b hf
      simp only [List.filterMap_cons, hf, hg]
      exact ih.cons₂ b

/-- The extractor's `+`-body delimitation is a subset of the natural one:
every line counted by `plusBodyContents` is counted by `plusBodyNatural`
with the same content. -/
lemma plusBody_sublist_natural (d : Str) :
    (plusBodyContents d).Sublist (plusBodyNatural d) := by
  apply filterMap_sublist_of_imp
  intro a b hab
  by_cases h1 : (strStarts a ['+'] && !strStarts a ['+', '+']) = true
  · rw [if_pos h1] at hab
    simp only [Bool.and_eq_true, Bool.not_eq_true'] at h1
    have h3 : strStarts a ['+', '+', '+'] = false := by
      cases hb : strStarts a ['+', '+', '+']
      · rfl
      · exact absurd (strStarts_of_append ['+', '+'] ['+'] a hb) (by simp [h1.2])
    rw [if_pos (by simp [h1.1, h3])]
    exact hab
  · rw [if_neg h1] at hab
    exact absurd hab (by simp)

/-- The extractor's `-`-body delimitation is a subset of the natural one. -/
lemma minusBody_sublist_natural (d : Str) :
    (minusBodyContents d).Sublist (minusBodyNatural d) := by
  apply filterMap_sublist_of_imp
  intro a b hab
  by_cases h1 : (strStarts a ['-'] && !strStarts a ['-', '-']) = true
  · rw [if_pos h1] at hab
    simp only [Bool.and_eq_true, Bool.not_eq_true'] at h1
    have h3 : strStarts a ['-', '-', '-'] = false := by
      cases hb : strStarts a ['-', '-', '-']
      · rfl
      · exact absurd (strStarts_of_append ['-', '-'] ['-'] a hb) (by simp [h1.2])
    rw [if_pos (by simp [h1.1, h3])]
    exact hab
  · rw [if_neg h1] at hab
    exact absurd hab (by simp)

/-- C1, amended.  No content is duplicated and at most one tuple arises per
body line, but full multiset coverage fails in both directions.  Plus side:
the new-side contents are exactly (list-equal, in order) the contents of the
`+`-body lines *not beginning `++`*; under the natural reading — all
`+`-prefixed body lines except the `+++` header — only a sub-multiset
survives, because an added line whose content begins with `+` (rendered
`++…` in the diff) is dropped.  Minus side: the old-side contents form a
sub-multiset of the `-`-body lines (natural reading) — removals are never
duplicated but are dropped when a `-` line is directly followed by another
`-` line (the pending removal is overwritten), when the old counter is null,
when a pending removal is cleared at a hunk-header boundary, or when the
removed content itself begins with `-` (rendered `--…`, which the extractor
treats as context). -/
theorem C1_changed_line_coverage_amended (d : Str) :
    newContents (extract_changed_lines d) = plusBodyContents d ∧
    (↑(newContents (extract_changed_lines d)) : Multiset Str) ≤ ↑(plusBodyNatural d) ∧
    (↑(oldContents (extract_changed_lines d)) : Multiset Str) ≤ ↑(minusBodyNatural d) := by
  refine ⟨extract_newContents d, ?_, ?_⟩
  · rw [Multiset.coe_le, extract_newContents d]
    exact (plusBody_sublist_natural d).subperm
  · rw [Multiset.coe_le]
    exact ((extract_oldContents_sublist d).trans (minusBody_sublist_natural d)).subperm

/-- Chain check that consecutive member keys are in order (equivalent to
sortedness for the total, transitive key order). -/
def pairwiseKeysOk : List (Str × Json) → Bool
  | [] => true
  | [_] => true
  | p :: q :: rest => lexLe p.1 q.1 && pairwiseKeysOk (q :: rest)

mutual

/-- Every object in the value, at any depth, has its member keys in
lexicographic order. -/
def keysSortedB : Json → Bool
  | .jarr xs => keysSortedListB xs
  | .jobj kvs => pairwiseKeysOk kvs && keysSortedPairsB kvs
  | _ => true

/-- `keysSortedB` over array elements. -/
def keysSortedListB : List Json → Bool
  | [] => true
  | x :: xs => keysSortedB x && keysSortedListB xs

/-- `keysSortedB` over member values. -/
def keysSortedPairsB : List (Str × Json) → Bool
  | [] => true
  | kv :: kvs => keysSortedB kv.2 && keysSortedPairsB kvs

end

/-- The lexicographic string order is total. -/
lemma lexLe_total (a b : Str) : lexLe a b = true ∨ lexLe b a = true := by
  induction a generalizing b with
  | nil => exact Or.inl rfl
  | cons c s ih =>
    cases b with
    | nil => exact Or.inr rfl
    | cons d t =>
      rcases lt_trichotomy c d with h | h | h
      · exact Or.inl (by simp [lexLe, h])
      · subst h
        rcases ih t with h2 | h2
        · exact Or.inl (by simp [lexLe, h2])
        · exact Or.inr (by simp [lexLe, h2])
      · exact Or.inr (by simp [lexLe, h])

/-- Insertion preserves the key chain. -/
lemma insPair_chain (p : Str × Json) (l : List (Str × Json))
    (hl : pairwiseKeysOk l = true) : pairwiseKeysOk (insPair p l) = true := by
  induction l with
  | nil => simp [insPair, pairwiseKeysOk]
  | cons q qs ih =>
    by_cases hpq : lexLe p.1 q.1 = true
    · simp only [insPair, if_pos hpq, pairwiseKeysOk]
      simp [hpq, hl]
    · have hqp : lexLe q.1 p.1 = true := by
        rcases lexLe_total p.1 q.1 with h | h
        · exact absurd h hpq
        · exact h
      simp only [insPair, if_neg hpq]
      cases qs with
      | nil =>
        simp [insPair, pairwiseKeysOk, hqp]
      | cons q2 qs2 =>
        simp only [pairwiseKeysOk, Bool.and_eq_true] at hl
        have htail := ih hl.2
        simp only [insPair] at htail ⊢
        by_cases hpq2 : lexLe p.1 q2.1 = true
        · rw [if_pos hpq2] at htail ⊢
          simp [pairwiseKeysOk, hqp, hpq2, hl.2]
        · rw [if_neg hpq2] at htail ⊢
          simp [pairwiseKeysOk, hl.1, htail]

/-- Insertion sort produces an ordered key chain. -/
lemma insSortPairs_chain (l : List (Str × Json)) :
    pairwiseKeysOk (insSortPairs l) = true := by
  induction l with
  | nil => rfl
  | cons p ps ih => exact insPair_chain p (insSortPairs ps) ih

/-- Insertion preserves sortedness of the member values. -/
lemma insPair_values (p : Str × Json) (l : List (Str × Json))
    (hp : keysSortedB p.2 = true) (hl : keysSortedPairsB l = true) :
    keysSortedPairsB (insPair p l) = true := by
  induction l with
  | nil => simp [insPair, keysSortedPairsB, hp]
  | cons q qs ih =>
    simp only [keysSortedPairsB, Bool.and_eq_true] at hl
    by_cases hpq : lexLe p.1 q.1 = true
    · simp [insPair, hpq, keysSortedPairsB, hp, hl.1, hl.2]
    · simp [insPair, hpq, keysSortedPairsB, hl.1, ih hl.2]

/-- Insertion sort preserves sortedness of the member values. -/
lemma insSortPairs_values (l : List (Str × Json))
    (hl : keysSortedPairsB l = true) : keysSortedPairsB (insSortPairs l) = true := by
  induction l with
  | nil => rfl
  | cons p ps ih =>
    simp only [keysSortedPairsB, Bool.and_eq_true] at hl
    exact insPair_values p (insSortPairs ps) hl.1 (ih hl.2)

mutual

/-- After `sortKeysRec`, every object at every depth has sorted keys. -/
theorem sortKeysRec_sorted : (v : Json) → keysSortedB (sortKeysRec v) = true
  | .jnull => rfl
  | .jbool _ => rfl
  | .jnum _ => rfl
  | .jstr _ => rfl
  | .jarr xs => by
    simp only [sortKeysRec, keysSortedB]
    exact sortKeysList_sorted xs
  | .jobj kvs => by
    simp only [sortKeysRec, keysSortedB, Bool.and_eq_true]
    exact ⟨insSortPairs_chain _, insSortPairs_values _ (sortKeysPairs_sorted kvs)⟩

/-- Array-elements version of `sortKeysRec_sorted`. -/
theorem sortKeysList_sorted : (xs : List Json) → keysSortedListB (sortKeysList xs) = true
  | [] => rfl
  | x :: xs => by
    simp only [sortKeysList, keysSortedListB, Bool.and_eq_true]
    exact ⟨sortKeysRec_sorted x, sortKeysList_sorted xs⟩

/-- Member-values version of `sortKeysRec_sorted`. -/
theorem sortKeysPairs_sorted : (kvs : List (Str × Json)) →
    keysSortedPairsB (sortKeysPairs kvs) = true
  | [] => rfl
  | kv :: kvs => by
    simp only [sortKeysPairs, keysSortedPairsB, Bool.and_eq_true]
    exact ⟨sortKeysRec_sorted kv.2, sortKeysPairs_sorted kvs⟩

end

/-- Digit rendering is never empty. -/
lemma natDigitsAux_ne_nil (fuel n : Nat) : natDigitsAux (fuel + 1) n ≠ [] := by
  unfold natDigitsAux
  split
  · simp
  · simp

/-- Integer rendering is never empty. -/
lemma intToStr_ne_nil (i : Int) : intToStr i ≠ [] := by
  cases i with
  | ofNat n => exact natDigitsAux_ne_nil n n
  | negSucc m => simp [intToStr]

/-- The serializer never produces an empty string, so a normalized JSON
string is always truthy in the comparator's gate. -/
lemma renderJson_ne_nil (lvl : Nat) (v : Json) : renderJson lvl v ≠ [] := by
  cases v with
  | jnull => simp [renderJson, lit]
  | jbool b => cases b <;> simp [renderJson, lit]
  | jnum n => simp [renderJson]; exact intToStr_ne_nil n
  | jstr s => simp [renderJson, encStr]
  | jarr xs => cases xs <;> simp [renderJson, lit]
  | jobj kvs => cases kvs <;> simp [renderJson, lit]

/-- Sorting keys maps over array elements in place: array order is
preserved. -/
lemma sortKeysList_eq_map (xs : List Json) : sortKeysList xs = xs.map sortKeysRec := by
  induction xs with
  | nil => rfl
  | cons x xs ih => simp [sortKeysList, ih]

/-- A successful normalization is never the empty string. -/
lemma normalize_json_ne_nil (s t : Str) (h : normalize_json s = some t) : t ≠ [] := by
  unfold normalize_json at h
  rcases hp : parseJson s with _ | v <;> simp only [hp] at h
  · simp at h
  · simp only [Option.some.injEq] at h
    subst h
    exact renderJson_ne_nil 0 (sortKeysRec v)

/-- C6.  `normalizeJson` returns null exactly on parse failure and otherwise
the canonical serialization (2-space indent via `renderJson`, all object
keys lexicographically sorted, array order preserved — `sortKeysRec` maps
over array elements), which is never empty; and the comparator's gate
replaces both texts with their normalized forms with JSON mode set exactly
when the original name's lowercased suffix is `.json`/`.gui`/`.cfg` and both
sides normalize successfully — otherwise both decoded texts are kept and
JSON mode is off. -/
theorem C6_normalize_json_gating (s : Str) (v : Json) (name oc mc no nm : Str) (xs : List Json) :
    (parseJson s = none → normalize_json s = none) ∧
    (parseJson s = some v →
      normalize_json s = some (jsonDumps v) ∧
      jsonDumps v = renderJson 0 (sortKeysRec v) ∧
      keysSortedB (sortKeysRec v) = true ∧
      jsonDumps v ≠ []) ∧
    sortKeysRec (Json.jarr xs) = Json.jarr (xs.map sortKeysRec) ∧
    (asciiLower (pathSuffix name) ∈ jsonLikeExts →
      normalize_json oc = some no → normalize_json mc = some nm →
      chooseContents name oc mc = (no, nm, true)) ∧
    (asciiLower (pathSuffix name) ∉ jsonLikeExts →
      chooseContents name oc mc = (oc, mc, false)) ∧
    ((normalize_json oc = none ∨ normalize_json mc = none) →
      chooseContents name oc mc = (oc, mc, false)) := by
  refine ⟨?_, ?_, ?_, ?_, ?_, ?_⟩
  · intro hp
    simp [normalize_json, hp]
  · intro hp
    refine ⟨by simp [normalize_json, hp], rfl, sortKeysRec_sorted v, ?_⟩
    exact renderJson_ne_nil 0 (sortKeysRec v)
  · simp [sortKeysRec, sortKeysList_eq_map]
  · intro hext h1 h2
    unfold chooseContents
    rw [if_pos hext]
    simp only [h1, h2]
    rw [if_pos ⟨normalize_json_ne_nil oc no h1, normalize_json_ne_nil mc nm h2⟩]
  · intro hext
    unfold chooseContents
    rw [if_neg hext]
  · intro hfail
    unfold chooseContents
    by_cases hext : asciiLower (pathSuffix name) ∈ jsonLikeExts
    · rw [if_pos hext]
      rcases hfail with hf | hf
      · rcases hoc : normalize_json mc with _ | x <;> simp only [hf, hoc]
      · rcases hoc : normalize_json oc with _ | x <;> simp only [hf, hoc]
    · rw [if_neg hext]

/-- A small unsorted JSON object text. -/
def c6Sample : Str := lit "\x7b\"b\":1,\"a\":2\x7d"

/-- Its parse (textual member order, as `json.loads` keeps it). -/
def c6Value : Json := Json.jobj [(lit "b", Json.jnum 1), (lit "a", Json.jnum 2)]

/-- Witness for C6, on the object text with keys `b`, `a`: normalization
sorts the keys, the `.json` suffix turns JSON mode on, a `.txt` suffix or a
failing side turns it off. -/
theorem C6_normalize_json_gating_witness :
    normalize_json c6Sample = some (jsonDumps c6Value) ∧
    keysSortedB (sortKeysRec c6Value) = true ∧
    jsonDumps c6Value ≠ [] ∧
    chooseContents (lit "f.json") c6Sample c6Sample =
      (jsonDumps c6Value, jsonDumps c6Value, true) ∧
    chooseContents (lit "f.txt") c6Sample c6Sample = (c6Sample, c6Sample, false) ∧
    chooseContents (lit "f.json") (lit "oops") c6Sample = (lit "oops", c6Sample, false) := by
  have hp : parseJson c6Sample = some c6Value := by rfl
  have h1 := C6_normalize_json_gating c6Sample c6Value (lit "f.json") c6Sample c6Sample
    (jsonDumps c6Value) (jsonDumps c6Value) []
  have h2 := C6_normalize_json_gating c6Sample c6Value (lit "f.txt") c6Sample c6Sample
    (jsonDumps c6Value) (jsonDumps c6Value) []
  have h3 := C6_normalize_json_gating c6Sample c6Value (lit "f.json") (lit "oops") c6Sample
    (jsonDumps c6Value) (jsonDumps c6Value) []
  have hn : normalize_json c6Sample = some (jsonDumps c6Value) := (h1.2.1 hp).1
  refine ⟨hn, (h1.2.1 hp).2.2.1, (h1.2.1 hp).2.2.2, ?_, ?_, ?_⟩
  · exact h1.2.2.2.1 (by decide) hn hn
  · exact h2.2.2.2.2.1 (by decide)
  · exact h3.2.2.2.2.2 (Or.inl (by rfl))
